import Mathlib

/-!
# pyflame driver: sampling loop, aggregation and report emission

A shallow embedding of `src/pyflame.cc` (the driver of the profiler): the two
report printers `print_frames` and `print_frames_ts`, the option loop of
`main`, and the `try` block of `main` with its sampling loop.

Conventions of the embedding

* Standard output and standard error are strings; every `<<` appends.
* `size_t` values are natural numbers below `2 ^ 64`; `++` on them wraps.
* A `double` variable is given by a rational and holds the binary64 value
  nearest to it (`to_double`, ties to even, subnormals included); products
  are rounded the same way.  `static_cast<long>` truncates toward zero and is
  defined only when the result fits in 64 bits (`to_micros` is `none`
  otherwise).
* Clock readings and durations are signed 64-bit counts of clock ticks;
  `tick` is the number of ticks in one microsecond (1000 for a nanosecond
  clock) and sums and products wrap modulo `2 ^ 64` (`wrap64`).
* The calls into the rest of the profiler (`PtraceAttach`, `PtraceDetach`,
  `Namespace`, `ThreadStateAddr`, `FirstFrameAddr`, `GetStack`) and the clock
  are answered from a script (`World`), one `Sample` per loop iteration; every
  call is written to an event log.
-/

namespace Pyflame

/-! ## Data model -/

/-- Modelled from the spec: `frame.h` is not part of the sources at hand; a
frame record is the triple (filename, function name, line number). -/
structure Frame where
  file : String
  name : String
  line : Nat
deriving DecidableEq, Repr

/-- A stack, innermost frame first (`frames_t` of `frame.h`). -/
abbrev frames_t := List Frame

/-- Modelled from the spec: `FrameTS` of `frame.h`, a stack with the clock
reading of its sample; the field order is the one of the brace initialisers
`{frames, now}` in `main`. -/
structure FrameTS where
  frames : frames_t
  ts : Int
deriving DecidableEq, Repr

/-- The two stream insertions whose definitions live outside `pyflame.cc`:
`operator<<` for a `Frame` and for a `system_clock` time point. -/
structure Fmt where
  frame : Frame → String
  ts : Int → String

/-- One more than the largest `size_t`. -/
def SIZE_LIMIT : Nat := 2 ^ 64

/-- The `++` of a `size_t` lvalue. -/
def size_incr (n : Nat) : Nat := (n + 1) % SIZE_LIMIT

/-- What a printer leaves behind: the text written to standard output, the
text written to standard error, and the returned value (`none` when control
runs off the end of the function without a `return`). -/
structure Printed where
  out : String
  err : String
  ret : Option Int
deriving DecidableEq, Repr

/-! ## `print_frames` (lines 49-67) -/

/-- Lines 62-64: every frame of `fs` in turn, each followed by `;`. -/
def emit_semis (fmt : Fmt) (out : String) (fs : List Frame) : String :=
  fs.foldl (fun acc f => acc ++ fmt.frame f ++ ";") out

/-- Lines 55-66: the loop over the buckets, in the iteration order of the
map.  For a non-empty key `last = rend() - 1` is the first stored frame, so
the inner loop runs over the other frames in reverse storage order. -/
def print_buckets (fmt : Fmt) : List (frames_t × Nat) → String → Printed
  | [], out => ⟨out, "", none⟩
  | ([], _) :: _, out => ⟨out, "uh oh\n", some 1⟩
  | (last :: tl, count) :: rest, out =>
    print_buckets fmt rest
      (emit_semis fmt out tl.reverse ++ fmt.frame last ++ " " ++ toString count ++ "\n")

/-- Lines 49-67. -/
def print_frames (fmt : Fmt) (idle : Nat) (buckets : List (frames_t × Nat)) : Printed :=
  print_buckets fmt buckets (if idle ≠ 0 then "(idle) " ++ toString idle ++ "\n" else "")

/-! ## `print_frames_ts` (lines 70-85) -/

/-- Lines 71-84: the loop over the trace. -/
def print_records (fmt : Fmt) : List FrameTS → String → String
  | [], out => out
  | it :: rest, out =>
    let out1 := out ++ fmt.ts it.ts ++ "\n"
    if it.frames = [] then
      print_records fmt rest (out1 ++ "(idle) " ++ "\n")
    else
      print_records fmt rest (emit_semis fmt out1 it.frames.reverse ++ "\n")

/-- Lines 70-85. -/
def print_frames_ts (fmt : Fmt) (frame_ts : List FrameTS) : Printed :=
  ⟨print_records fmt frame_ts "", "", none⟩

/-! ## The option loop of `main` (lines 88-150) -/

/-- The `has_arg` field of a `struct option`. -/
inductive has_arg_t where
  | no_argument
  | required_argument
deriving DecidableEq, Repr

/-- A row of `long_options`; the `flag` field is `0` in every row of the
source and is left out. -/
structure long_option where
  name : String
  has_arg : has_arg_t
  val : Char
deriving DecidableEq, Repr

/-- Lines 93-100. -/
def long_options : List long_option :=
  [⟨"help", .no_argument, 'h'⟩,
   ⟨"rate", .required_argument, 'r'⟩,
   ⟨"seconds", .required_argument, 's'⟩,
   ⟨"version", .no_argument, 'v'⟩,
   ⟨"exclude-idle", .no_argument, 'x'⟩,
   ⟨"timestamp", .no_argument, 't'⟩]

/-- The short-option string handed to `getopt_long` on line 102. -/
def optstring : String := "hr:s:vx"

/-- Lines 35-44: the text of `usage_str` as the declaration closes it; the
line of the source that follows, with the text of `-t, --timestamp`, stands
outside the initialiser. -/
def usage_str : String :=
  "Usage: pyflame [options] <pid>\n" ++
  "\n" ++
  "General Options:\n" ++
  "  -h, --help           Show help\n" ++
  "  -s, --seconds=SECS   How many seconds to run for (default 1)\n" ++
  "  -r, --rate=RATE      Sample rate, as a fractional value of seconds " ++
  "(default 0.001)\n" ++
  "  -v, --version        Show the version\n" ++
  "  -x, --exclude-idle   Exclude idle time from statistics\n"

/-- One return of `getopt_long`: the returned character and `optarg`. -/
structure GetoptRet where
  c : Char
  optarg : Option String
deriving DecidableEq, Repr

/-- The C library routine `getopt_long`, short options: looks `c` up in the
option string; `some true` when the option takes an argument. -/
def short_lookup (c : Char) : List Char → Option Bool
  | [] => none
  | x :: rest =>
    if x = c ∧ c ≠ ':' ∧ c ≠ ';' then some (rest.head? = some ':')
    else short_lookup c rest

/-- The C library routine `getopt_long`, one `-abc` word: the returns it
gives for the letters `cs`, and the letter still waiting for its argument in
the next word, if any. -/
def scan_cluster (opts : List Char) : List Char → List GetoptRet × Option Char
  | [] => ([], none)
  | c :: cs =>
    match short_lookup c opts with
    | none =>
      let r := scan_cluster opts cs
      (⟨'?', none⟩ :: r.1, r.2)
    | some false =>
      let r := scan_cluster opts cs
      (⟨c, none⟩ :: r.1, r.2)
    | some true =>
      if cs = [] then ([], some c) else ([⟨c, some (String.mk cs)⟩], none)

/-- The C library routine `getopt_long`, one `--name` or `--name=value` word
(`body` is the word without its two dashes): an exact name wins, a prefix
that fits one row only is accepted as an abbreviation. -/
def scan_long (table : List long_option) (body : List Char) :
    List GetoptRet × Option Char :=
  let name := body.takeWhile (fun ch => ch ≠ '=')
  let value : Option String :=
    if body.length = name.length then none
    else some (String.mk (body.drop (name.length + 1)))
  let exact := table.filter (fun r => r.name.toList = name)
  let cands := table.filter (fun r => name.isPrefixOf r.name.toList)
  let found : Option long_option :=
    match exact with
    | r :: _ => some r
    | [] => match cands with
      | [r] => some r
      | _ => none
  match found with
  | none => ([⟨'?', none⟩], none)
  | some r =>
    match r.has_arg, value with
    | .no_argument, none => ([⟨r.val, none⟩], none)
    | .no_argument, some _ => ([⟨'?', none⟩], none)
    | .required_argument, some v => ([⟨r.val, some v⟩], none)
    | .required_argument, none => ([], some r.val)

/-- The C library routine `getopt_long` run over the words after `argv[0]`
until it returns `-1`: the returns in order, and the words that are operands
(they end up last in `argv`, in their order).  The second argument is an
option whose argument is the next word; the third is set once the word `--`
was seen.  The diagnostics the routine writes for a `?` return are left
out. -/
def getopt_scan (opts : List Char) (table : List long_option) :
    List String → Option Char → Bool → List GetoptRet × List String
  | [], none, _ => ([], [])
  | [], some _, _ => ([⟨'?', none⟩], [])
  | a :: rest, some c, closed =>
    let r := getopt_scan opts table rest none closed
    (⟨c, some a⟩ :: r.1, r.2)
  | a :: rest, none, true =>
    let r := getopt_scan opts table rest none true
    (r.1, a :: r.2)
  | a :: rest, none, false =>
    match a.toList with
    | ['-', '-'] => getopt_scan opts table rest none true
    | '-' :: '-' :: body =>
      let w := scan_long table body
      let r := getopt_scan opts table rest w.2 false
      (w.1 ++ r.1, r.2)
    | '-' :: c :: cs =>
      let w := scan_cluster opts (c :: cs)
      let r := getopt_scan opts table rest w.2 false
      (w.1 ++ r.1, r.2)
    | _ =>
      let r := getopt_scan opts table rest none false
      (r.1, a :: r.2)

/-- Lines 88-91: the variables the option loop sets.  The two `double`
variables are given by rationals (see `to_double`). -/
structure Options where
  include_idle : Bool
  include_ts : Bool
  seconds : ℚ
  sample_rate : ℚ

/-- Lines 88-91: the initial values. -/
def Options.initial : Options :=
  { include_idle := true, include_ts := false, seconds := 1, sample_rate := 1 / 1000 }

/-- What `pyflame.cc` takes from elsewhere: the stream insertions, the
library conversions `std::stod` (`none` when it throws) and `std::strtol`,
and the two version texts of `config.h` and `version.h`. -/
structure Lib where
  fmt : Fmt
  stod : String → Option ℚ
  strtol : String → Int
  PACKAGE_STRING : String
  kBuildNote : String

/-- How the option loop is left. -/
inductive OptionExit where
  | returned (code : Int) (out : String)
  | aborted
  | parsed (o : Options)

/-- Lines 92-140: the body of the option loop over the returns of
`getopt_long`.  `std::stod` throwing outside the `try` block and the
`default` label both end the process abnormally. -/
def option_loop (lib : Lib) : List GetoptRet → Options → OptionExit
  | [], o => .parsed o
  | r :: rest, o =>
    if r.c = Char.ofNat 0 then option_loop lib rest o
    else if r.c = 'h' then .returned 0 usage_str
    else if r.c = 'r' then
      match lib.stod (r.optarg.getD "") with
      | none => .aborted
      | some x => option_loop lib rest { o with sample_rate := x }
    else if r.c = 's' then
      match lib.stod (r.optarg.getD "") with
      | none => .aborted
      | some x => option_loop lib rest { o with seconds := x }
    else if r.c = 'v' then
      .returned 0 (lib.PACKAGE_STRING ++ "\n\n" ++ lib.kBuildNote ++ "\n")
    else if r.c = 'x' then option_loop lib rest { o with include_idle := false }
    else if r.c = 't' then option_loop lib rest { o with include_ts := true }
    else if r.c = '?' then option_loop lib rest o
    else .aborted

/-- Lines 88-140 on a command line `argv` (with `argv[0]` first). -/
def parse_options (lib : Lib) (argv : List String) : OptionExit :=
  option_loop lib (getopt_scan optstring.toList long_options argv.tail none false).1
    Options.initial

/-! ## The `try` block of `main` (lines 151-226) -/

/-- The calls `main` makes into the rest of the profiler and the standard
library while it samples. -/
inductive Fn where
  | PtraceAttach
  | PtraceDetach
  | Namespace
  | ThreadStateAddr
  | FirstFrameAddr
  | GetStack
  | now
  | sleep_for
deriving DecidableEq, Repr

/-- One entry of the event log: the call made, and whether it returned
(`true`) or threw (`false`). -/
structure Event where
  fn : Fn
  ok : Bool
deriving DecidableEq, Repr

/-- The answers of the outside world during one iteration of the sampling
loop, in the order lines 165-197 ask for them; an `error` is a thrown
exception with its `what()` text.  `stack` is consulted only when the frame
address is not zero, `detach` and `attach` only when the loop goes on. -/
structure Sample where
  frame_addr : Except String Nat
  stack : Except String frames_t
  now : Int
  detach : Except String Unit
  attach : Except String Unit

/-- The answers of the outside world for one run of the `try` block: the
calls of lines 152-154, the clock reading of line 162, the clock resolution
and the samples. -/
structure World where
  attach : Except String Unit
  ns : Except String Unit
  tstate : Except String Nat
  start : Int
  tick : Nat
  samples : List Sample

/-- The locals of lines 158-160. -/
structure LoopState where
  buckets : List (frames_t × Nat)
  frame_ts : List FrameTS
  idle : Nat
deriving DecidableEq, Repr

/-- Lines 158-160: an empty map, an empty trace, `idle = 0`. -/
def LoopState.initial : LoopState := ⟨[], [], 0⟩

/-- How the sampling loop is left: by the `break` of line 193, by an
exception, or not yet (the script of samples is used up while the loop is
still running). -/
inductive LoopExit where
  | done
  | threw (msg : String)
  | running
deriving DecidableEq, Repr

/-- Rounding of a rational to the nearest integer, a tie going to the even
neighbour. -/
def round_even (x : ℚ) : Int :=
  if x - ⌊x⌋ < 1 / 2 then ⌊x⌋
  else if 1 / 2 < x - ⌊x⌋ then ⌊x⌋ + 1
  else if ⌊x⌋ % 2 = 0 then ⌊x⌋ else ⌊x⌋ + 1

/-- The binary64 value nearest to a rational `q ≥ 0`: 53 significant bits,
the unit in the last place never below `2 ^ (-1074)`, ties to even.  (A
value too large for binary64 comes out at `2 ^ 1024` or more.) -/
def to_double_abs (q : ℚ) : ℚ :=
  (round_even (q / 2 ^ (max (Int.log 2 q) (-1022) - 52)) : ℚ)
    * 2 ^ (max (Int.log 2 q) (-1022) - 52)

/-- The binary64 value nearest to a rational: the value a `double` holds
after `std::stod`, after initialisation from a decimal literal, and after an
arithmetic operation with the exact result `q`. -/
def to_double (q : ℚ) : ℚ :=
  if q < 0 then -to_double_abs (-q) else to_double_abs q

/-- The `static_cast<long>(x * 1000000)` of lines 157 and 163 for the
`double` given by `x`: the product is rounded to binary64 and truncated
toward zero; `none` when the result does not fit in a `long`, where the cast
is not defined. -/
def to_micros (x : ℚ) : Option Int :=
  let product := to_double (to_double x * 1000000)
  let t : Int := if 0 ≤ product then ⌊product⌋ else ⌈product⌉
  if -2 ^ 63 ≤ t ∧ t < 2 ^ 63 then some t else none

/-- The value of a signed 64-bit integer after wrap-around. -/
def wrap64 (x : Int) : Int := (x + 2 ^ 63) % 2 ^ 64 - 2 ^ 63

/-- A time point plus a number of microseconds, in clock ticks: the
microseconds are converted to ticks and added, both in 64 bits. -/
def time_add (tick : Nat) (t : Int) (us : Int) : Int :=
  wrap64 (t + wrap64 (tick * us))

/-- The lookup of line 173: the count stored for `frames`, if any. -/
def bucket_find (frames : frames_t) : List (frames_t × Nat) → Option Nat
  | [] => none
  | (k, v) :: rest => if k = frames then some v else bucket_find frames rest

/-- Lines 173-178: a new key enters the map with count 1, a known key has
its count incremented.  (The map is kept in insertion order; the order in
which an `unordered_map` is iterated is not fixed by the language.) -/
def bucket_add (frames : frames_t) : List (frames_t × Nat) → List (frames_t × Nat)
  | [] => [(frames, 1)]
  | (k, v) :: rest =>
    if k = frames then (k, size_incr v) :: rest else (k, v) :: bucket_add frames rest

/-- Lines 166-191 without the calls: what one iteration does to the locals,
given the frame address read on line 165, the stack obtained on line 171
(not looked at when the address is zero) and the clock reading of line 181.
(`frames` on line 189 is the stack of line 171 of the same iteration.) -/
def record (o : Options) (frame_addr : Nat) (frames : frames_t) (now : Int)
    (st : LoopState) : LoopState :=
  let st :=
    if frame_addr = 0 then
      if o.include_idle then { st with idle := size_incr st.idle } else st
    else
      if !o.include_ts then { st with buckets := bucket_add frames st.buckets } else st
  if o.include_ts then
    if 0 = frame_addr then { st with frame_ts := st.frame_ts ++ [⟨[], now⟩] }
    else { st with frame_ts := st.frame_ts ++ [⟨frames, now⟩] }
  else st

/-- Lines 165-191: the calls of one iteration, in order, and the locals
after it, or the text of the exception that ended it. -/
def take_sample (o : Options) (s : Sample) (st : LoopState) :
    List Event × Except String LoopState :=
  match s.frame_addr with
  | .error e => ([⟨.FirstFrameAddr, false⟩], .error e)
  | .ok frame_addr =>
    if frame_addr = 0 then
      ([⟨.FirstFrameAddr, true⟩, ⟨.now, true⟩], .ok (record o frame_addr [] s.now st))
    else
      match s.stack with
      | .error e => ([⟨.FirstFrameAddr, true⟩, ⟨.GetStack, false⟩], .error e)
      | .ok frames =>
        ([⟨.FirstFrameAddr, true⟩, ⟨.GetStack, true⟩, ⟨.now, true⟩],
          .ok (record o frame_addr frames s.now st))

/-- What the sampling loop leaves behind. -/
structure LoopResult where
  exit : LoopExit
  state : LoopState
  events : List Event
deriving DecidableEq, Repr

/-- Lines 164-198: the sampling loop. -/
def sampling_loop (o : Options) (tick : Nat) (interval end_ : Int) :
    List Sample → LoopState → LoopResult
  | [], st => ⟨.running, st, []⟩
  | s :: rest, st =>
    match take_sample o s st with
    | (ev, .error e) => ⟨.threw e, st, ev⟩
    | (ev, .ok st1) =>
      if time_add tick s.now interval ≥ end_ then ⟨.done, st1, ev⟩
      else
        match s.detach with
        | .error e => ⟨.threw e, st1, ev ++ [⟨.PtraceDetach, false⟩]⟩
        | .ok _ =>
          match s.attach with
          | .error e =>
            ⟨.threw e, st1,
              ev ++ [⟨.PtraceDetach, true⟩, ⟨.sleep_for, true⟩, ⟨.PtraceAttach, false⟩]⟩
          | .ok _ =>
            let r := sampling_loop o tick interval end_ rest st1
            ⟨r.exit, r.state,
              ev ++ [⟨.PtraceDetach, true⟩, ⟨.sleep_for, true⟩, ⟨.PtraceAttach, true⟩]
                ++ r.events⟩

/-- How a run of `main` ends: it returns an exit code, it is ended abnormally
(an exception outside the `try` block, or `abort()`), it is still running
when the script of samples is used up, or it reaches a cast whose result the
language does not define. -/
inductive Ending where
  | returned (code : Int)
  | aborted
  | running
  | undefined
deriving DecidableEq, Repr

/-- What a run leaves behind. -/
structure Result where
  ending : Ending
  out : String
  err : String
  events : List Event
deriving DecidableEq, Repr

/-- Lines 219-225: both handlers write `what()` and return 1. -/
def caught (msg : String) (out : String) (events : List Event) : Result :=
  ⟨.returned 1, out, msg ++ "\n", events⟩

/-- Lines 206-217: the branch taken when `seconds` is zero.  It takes its
answers from the first sample of the script; the clock reading written on
line 208 is the `now` of that sample. -/
def single_shot (fmt : Fmt) (o : Options) (events : List Event) : List Sample → Result
  | [] => ⟨.running, "", "", events⟩
  | s :: _ =>
    match s.frame_addr with
    | .error e => caught e "" (events ++ [⟨.FirstFrameAddr, false⟩])
    | .ok frame_addr =>
      let events := events ++ [⟨.FirstFrameAddr, true⟩]
      let out := if o.include_ts then fmt.ts s.now ++ "\n" else ""
      let events := if o.include_ts then events ++ [⟨.now, true⟩] else events
      if frame_addr ≠ 0 then
        match s.stack with
        | .error e => caught e out (events ++ [⟨.GetStack, false⟩])
        | .ok stack =>
          ⟨.returned 0, stack.reverse.foldl (fun acc f => acc ++ fmt.frame f ++ "\n") out, "",
            events ++ [⟨.GetStack, true⟩]⟩
      else ⟨.returned 0, out ++ "(idle)\n", "", events⟩

/-- Lines 158-204: the locals, the sampling loop and the report, for the
interval and the end instant of lines 156-163; `events` are the calls made
before the loop. -/
def sample_and_report (fmt : Fmt) (o : Options) (tick : Nat) (interval end_ : Int)
    (samples : List Sample) (events : List Event) : Result :=
  let r := sampling_loop o tick interval end_ samples LoopState.initial
  match r.exit with
  | .threw e => caught e "" (events ++ r.events)
  | .running => ⟨.running, "", "", events ++ r.events⟩
  | .done =>
    let p :=
      if o.include_ts then print_frames_ts fmt r.state.frame_ts
      else print_frames fmt r.state.idle r.state.buckets
    ⟨.returned 0, p.out, p.err, events ++ r.events⟩

/-- Lines 151-226: the `try` block with its handlers and the final
`return 0`.  The value returned by the printers is not used by `main`. -/
def main_try (fmt : Fmt) (o : Options) (w : World) : Result :=
  match w.attach with
  | .error e => caught e "" [⟨.PtraceAttach, false⟩]
  | .ok _ =>
    match w.ns with
    | .error e => caught e "" [⟨.PtraceAttach, true⟩, ⟨.Namespace, false⟩]
    | .ok _ =>
      match w.tstate with
      | .error e =>
        caught e "" [⟨.PtraceAttach, true⟩, ⟨.Namespace, true⟩, ⟨.ThreadStateAddr, false⟩]
      | .ok _ =>
        let events : List Event :=
          [⟨.PtraceAttach, true⟩, ⟨.Namespace, true⟩, ⟨.ThreadStateAddr, true⟩]
        if to_double o.seconds ≠ 0 then
          match to_micros o.sample_rate with
          | none => ⟨.undefined, "", "", events⟩
          | some interval =>
            match to_micros o.seconds with
            | none => ⟨.undefined, "", "", events ++ [⟨.now, true⟩]⟩
            | some span =>
              let end_ := time_add w.tick w.start span
              sample_and_report fmt o w.tick interval end_ w.samples
                (events ++ [⟨.now, true⟩])
        else single_shot fmt o events w.samples

/-- Lines 87-226: `main` on a command line `argv` (with `argv[0]` first). -/
def main (lib : Lib) (argv : List String) (w : World) : Result :=
  match parse_options lib argv with
  | .returned code out => ⟨.returned code, out, "", []⟩
  | .aborted => ⟨.aborted, "", "", []⟩
  | .parsed o =>
    match (getopt_scan optstring.toList long_options argv.tail none false).2 with
    | [operand] =>
      let pid := lib.strtol operand
      if pid > 2147483647 ∨ pid < -2147483648 then
        ⟨.returned 1, "", "PID " ++ toString pid ++ " is out of valid PID range.\n", []⟩
      else main_try lib.fmt o w
    | _ => ⟨.returned 1, "", usage_str, []⟩

/-! ## Vocabulary of the statements -/

/-- One histogram line as the report format words it: the frames from the
outermost to the innermost with a `;` between neighbours, a space, the
count, a newline. -/
def bucket_line (fmt : Fmt) (kv : frames_t × Nat) : String :=
  ";".intercalate (kv.1.reverse.map fmt.frame) ++ " " ++ toString kv.2 ++ "\n"

/-- The frame address a sample reads (zero when the read throws). -/
def Sample.addr (x : Sample) : Nat :=
  match x.frame_addr with
  | .ok a => a
  | .error _ => 0

/-- The result of `GetStack` for a sample (empty when the call throws). -/
def Sample.frames (x : Sample) : frames_t :=
  match x.stack with
  | .ok fs => fs
  | .error _ => []

/-- The stack of a sample: empty when the frame address is zero, the result
of `GetStack` otherwise. -/
def Sample.stack_of (x : Sample) : frames_t :=
  if x.addr = 0 then [] else x.frames

/-- Neither `FirstFrameAddr` nor, where it is called, `GetStack` throws. -/
def Sample.reads_ok (x : Sample) : Bool :=
  match x.frame_addr with
  | .error _ => false
  | .ok a =>
    a = 0 ||
      match x.stack with
      | .ok _ => true
      | .error _ => false

/-- The sample is not idle and `GetStack` gave the stack `s`. -/
def Sample.hit (s : frames_t) (x : Sample) : Bool :=
  match x.frame_addr, x.stack with
  | .ok a, .ok fs => a ≠ 0 && fs = s
  | _, _ => false

/-- The call returned. -/
def returned_ok {α : Type} (r : Except String α) : Bool :=
  match r with
  | .ok _ => true
  | .error _ => false

/-- The samples `ss` are exactly the samples of one run of the loop that
ends by its `break`: no call throws, the test of line 192 fails after every
sample but the last and holds after the last. -/
def complete_run (tick : Nat) (interval end_ : Int) : List Sample → Bool
  | [] => false
  | x :: rest =>
    x.reads_ok &&
      if time_add tick x.now interval ≥ end_ then rest.isEmpty
      else returned_ok x.detach && returned_ok x.attach &&
        complete_run tick interval end_ rest

/-- The locals after a sample whose reads returned. -/
def tally (o : Options) (st : LoopState) (x : Sample) : LoopState :=
  record o x.addr x.stack_of x.now st

/-- Number of calls of `fn` in an event log. -/
def calls (fn : Fn) (events : List Event) : Nat :=
  events.countP (fun e => e.fn = fn)

/-- Number of calls of `fn` that returned. -/
def returns (fn : Fn) (events : List Event) : Nat :=
  events.countP (fun e => e.fn = fn && e.ok)

/-- Whether the target is attached after the events, having been attached
or not (`b`) before them: a `PtraceAttach` that returns attaches it, a
`PtraceDetach` that returns releases it. -/
def attached_after (b : Bool) (events : List Event) : Bool :=
  events.foldl
    (fun st e =>
      if e.ok && e.fn = Fn.PtraceAttach then true
      else if e.ok && e.fn = Fn.PtraceDetach then false
      else st) b

/-- The value of `include_ts` the option loop ends with, when it ends by
falling out of the loop. -/
def OptionExit.include_ts : OptionExit → Option Bool
  | .parsed o => some o.include_ts
  | _ => none

/-! ## Sample data -/

/-- A rendering of frames and clock readings used in the examples. -/
def fmt0 : Fmt :=
  { frame := fun f => f.file ++ ":" ++ f.name ++ ":" ++ toString f.line
    ts := fun t => toString t }

/-- An outer frame. -/
def frame_f : Frame := ⟨"a.py", "f", 3⟩

/-- An inner frame. -/
def frame_g : Frame := ⟨"a.py", "g", 7⟩

/-- A sample of a running target: `g` called from `f`, read at time `t`. -/
def busy_sample (t : Int) : Sample :=
  ⟨.ok 4096, .ok [frame_g, frame_f], t, .ok (), .ok ()⟩

/-- A sample of an idle target, read at time `t`. -/
def idle_sample (t : Int) : Sample :=
  ⟨.ok 0, .ok [], t, .ok (), .ok ()⟩

/-- A scripted world in which every call before the loop returns. -/
def world0 (start : Int) (samples : List Sample) : World :=
  ⟨.ok (), .ok (), .ok 512, start, 1000, samples⟩


/-! # Theorems -/

/-! ## Rounding and 64-bit arithmetic -/

theorem round_even_bounds (x : ℚ) : ⌊x⌋ ≤ round_even x ∧ round_even x ≤ ⌊x⌋ + 1 := by
  unfold round_even
  split_ifs <;> omega

theorem round_even_intCast (n : Int) : round_even (n : ℚ) = n := by
  unfold round_even
  simp

theorem round_even_mono {x y : ℚ} (h : x ≤ y) : round_even x ≤ round_even y := by
  have hf : ⌊x⌋ ≤ ⌊y⌋ := Int.floor_le_floor h
  rcases lt_or_eq_of_le hf with hlt | heq
  · have h1 := (round_even_bounds x).2
    have h2 := (round_even_bounds y).1
    omega
  · have hfrac : x - ⌊x⌋ ≤ y - ⌊y⌋ := by
      rw [heq]
      linarith
    unfold round_even
    rw [heq] at hfrac ⊢
    split_ifs <;> first | omega | (exfalso; linarith)

theorem round_even_le_int {x : ℚ} {n : Int} (h : x ≤ n) : round_even x ≤ n := by
  have := round_even_mono h
  rwa [round_even_intCast] at this

theorem int_le_round_even {x : ℚ} {n : Int} (h : (n : ℚ) ≤ x) : n ≤ round_even x := by
  have := round_even_mono h
  rwa [round_even_intCast] at this

theorem two_zpow_pos (p : Int) : (0 : ℚ) < 2 ^ p := zpow_pos (by norm_num) p

theorem log_two_eq {q : ℚ} {e : Int} (h1 : (2 : ℚ) ^ e ≤ q) (h2 : q < 2 ^ (e + 1)) :
    Int.log 2 q = e := by
  have hq : 0 < q := lt_of_lt_of_le (two_zpow_pos e) h1
  have ha : e ≤ Int.log 2 q := by
    rw [← Int.zpow_le_iff_le_log (by norm_num) hq]
    simpa using h1
  have hb : Int.log 2 q < e + 1 := by
    rw [← Int.lt_zpow_iff_log_lt (by norm_num) hq]
    simpa using h2
  omega

theorem log_two_bounds {q : ℚ} (hq : 0 < q) :
    (2 : ℚ) ^ (Int.log 2 q) ≤ q ∧ q < 2 ^ (Int.log 2 q + 1) := by
  have h1 := Int.zpow_log_le_self (b := 2) (by norm_num) hq
  have h2 := Int.lt_zpow_succ_log_self (b := 2) (by norm_num) q
  simp only [Nat.cast_ofNat] at h1 h2
  exact ⟨h1, h2⟩

theorem to_double_abs_nonneg {q : ℚ} (hq : 0 ≤ q) : 0 ≤ to_double_abs q := by
  unfold to_double_abs
  have hp := two_zpow_pos (max (Int.log 2 q) (-1022) - 52)
  have h0 : (0 : Int) ≤ round_even (q / 2 ^ (max (Int.log 2 q) (-1022) - 52)) := by
    apply int_le_round_even
    simp only [Int.cast_zero]
    positivity
  have : (0 : ℚ) ≤ (round_even (q / 2 ^ (max (Int.log 2 q) (-1022) - 52)) : ℚ) := by
    exact_mod_cast h0
  positivity

theorem to_double_abs_mono {x y : ℚ} (hx : 0 < x) (h : x ≤ y) :
    to_double_abs x ≤ to_double_abs y := by
  have hy : 0 < y := lt_of_lt_of_le hx h
  have hlog : Int.log 2 x ≤ Int.log 2 y := Int.log_mono_right hx h
  obtain ⟨hx1, hx2⟩ := log_two_bounds hx
  obtain ⟨hy1, hy2⟩ := log_two_bounds hy
  unfold to_double_abs
  generalize hex : Int.log 2 x = ex at *
  generalize hey : Int.log 2 y = ey at *
  by_cases hm : max ex (-1022) = max ey (-1022)
  · rw [hm]
    have hp := two_zpow_pos (max ey (-1022) - 52)
    have hdiv : x / 2 ^ (max ey (-1022) - 52) ≤ y / 2 ^ (max ey (-1022) - 52) :=
      div_le_div_of_nonneg_right h (le_of_lt hp)
    have hr := round_even_mono hdiv
    have hr2 : (round_even (x / 2 ^ (max ey (-1022) - 52)) : ℚ)
        ≤ (round_even (y / 2 ^ (max ey (-1022) - 52)) : ℚ) := by exact_mod_cast hr
    exact mul_le_mul_of_nonneg_right hr2 (le_of_lt hp)
  · have hlt : max ex (-1022) + 1 ≤ ey := by omega
    have hmy : max ey (-1022) = ey := by omega
    rw [hmy]
    generalize hmx : max ex (-1022) = m at *
    have hexm : ex + 1 ≤ m + 1 := by omega
    -- the rounded value of `x` is at most `2 ^ (m + 1)`
    have hxlt : x ≤ 2 ^ (m + 1) :=
      le_trans (le_of_lt hx2) (zpow_le_zpow_right₀ (by norm_num) hexm)
    have hpx := two_zpow_pos (m - 52)
    have hsplit : (2 : ℚ) ^ (m + 1) = ((2 ^ 53 : Int) : ℚ) * 2 ^ (m - 52) := by
      have : (m + 1 : Int) = 53 + (m - 52) := by ring
      rw [this, zpow_add₀ (by norm_num : (2 : ℚ) ≠ 0)]
      norm_num
    have hxdiv : x / 2 ^ (m - 52) ≤ ((2 ^ 53 : Int) : ℚ) := by
      rw [div_le_iff₀ hpx, ← hsplit]
      exact hxlt
    have hrx : (round_even (x / 2 ^ (m - 52)) : ℚ) ≤ ((2 ^ 53 : Int) : ℚ) := by
      exact_mod_cast round_even_le_int hxdiv
    have hleft : (round_even (x / 2 ^ (m - 52)) : ℚ) * 2 ^ (m - 52) ≤ 2 ^ (m + 1) := by
      rw [hsplit]
      exact mul_le_mul_of_nonneg_right hrx (le_of_lt hpx)
    -- the rounded value of `y` is at least `2 ^ ey`
    have hpy := two_zpow_pos (ey - 52)
    have hsplity : (2 : ℚ) ^ ey = ((2 ^ 52 : Int) : ℚ) * 2 ^ (ey - 52) := by
      have : (ey : Int) = 52 + (ey - 52) := by ring
      conv_lhs => rw [this]
      rw [zpow_add₀ (by norm_num : (2 : ℚ) ≠ 0)]
      norm_num
    have hydiv : ((2 ^ 52 : Int) : ℚ) ≤ y / 2 ^ (ey - 52) := by
      rw [le_div_iff₀ hpy, ← hsplity]
      exact hy1
    have hry : ((2 ^ 52 : Int) : ℚ) ≤ (round_even (y / 2 ^ (ey - 52)) : ℚ) := by
      exact_mod_cast int_le_round_even hydiv
    have hright : (2 : ℚ) ^ ey ≤ (round_even (y / 2 ^ (ey - 52)) : ℚ) * 2 ^ (ey - 52) := by
      rw [hsplity]
      exact mul_le_mul_of_nonneg_right hry (le_of_lt hpy)
    have hmid : (2 : ℚ) ^ (m + 1) ≤ 2 ^ ey := zpow_le_zpow_right₀ (by norm_num) hlt
    linarith

theorem to_double_of_nonneg {q : ℚ} (hq : 0 ≤ q) : to_double q = to_double_abs q := by
  unfold to_double
  rw [if_neg (not_lt.2 hq)]

theorem to_double_zero : to_double 0 = 0 := by
  rw [to_double_of_nonneg (le_refl 0)]
  unfold to_double_abs
  simp [round_even]

theorem to_double_abs_eq {q : ℚ} {e n : Int} (h1 : (2 : ℚ) ^ e ≤ q) (h2 : q < 2 ^ (e + 1))
    (he : -1022 ≤ e) (hn : round_even (q / 2 ^ (e - 52)) = n) :
    to_double_abs q = (n : ℚ) * 2 ^ (e - 52) := by
  unfold to_double_abs
  rw [log_two_eq h1 h2, max_eq_left he, hn]

theorem round_even_eq {x : ℚ} {n : Int} (h1 : (n : ℚ) - 1 / 2 < x) (h2 : x < n + 1 / 2) :
    round_even x = n := by
  have hfl := Int.floor_le x
  have hfu := Int.lt_floor_add_one x
  have hlo : n - 1 ≤ ⌊x⌋ := by
    have : ((n - 1 : Int) : ℚ) < ((⌊x⌋ + 1 : Int) : ℚ) := by
      push_cast
      linarith
    have := Int.cast_lt.1 this
    omega
  have hhi : ⌊x⌋ ≤ n := by
    have : ((⌊x⌋ : Int) : ℚ) < ((n + 1 : Int) : ℚ) := by
      push_cast
      linarith
    have := Int.cast_lt.1 this
    omega
  rcases (by omega : ⌊x⌋ = n ∨ ⌊x⌋ = n - 1) with hf | hf
  · unfold round_even
    rw [hf]
    rw [if_pos (by linarith)]
  · have hfq : ((⌊x⌋ : Int) : ℚ) = (n : ℚ) - 1 := by
      rw [hf]
      push_cast
      ring
    unfold round_even
    rw [if_neg (by rw [hfq]; linarith), if_pos (by rw [hfq]; linarith), hf]
    omega

theorem to_double_abs_exact {q : ℚ} {e : Int} (n : Int) (h1 : (2 : ℚ) ^ e ≤ q)
    (h2 : q < 2 ^ (e + 1)) (he : -1022 ≤ e) (hn : q = (n : ℚ) * 2 ^ (e - 52)) :
    to_double_abs q = q := by
  have hp := two_zpow_pos (e - 52)
  have hr : round_even (q / 2 ^ (e - 52)) = n := by
    have : q / 2 ^ (e - 52) = (n : ℚ) := by
      rw [hn]
      field_simp
    rw [this, round_even_intCast]
  rw [to_double_abs_eq h1 h2 he hr, ← hn]

theorem to_double_one : to_double 1 = 1 := by
  rw [to_double_of_nonneg (by norm_num)]
  exact to_double_abs_exact (e := 0) (2 ^ 52) (by norm_num) (by norm_num) (by norm_num)
    (by norm_num)

theorem to_double_default_rate : to_double (1 / 1000) = 4611686018427388 * 2 ^ (-62 : Int) := by
  rw [to_double_of_nonneg (by norm_num)]
  have hr : round_even ((1 / 1000 : ℚ) / 2 ^ ((-10 : Int) - 52)) = 4611686018427388 := by
    apply round_even_eq <;> norm_num
  rw [to_double_abs_eq (e := -10) (by norm_num) (by norm_num) (by norm_num) hr]
  norm_num

theorem to_micros_eq {x v : ℚ} {t : Int} (hv : to_double (to_double x * 1000000) = v)
    (h0 : 0 ≤ v) (ht : ⌊v⌋ = t) (hr : -2 ^ 63 ≤ t ∧ t < 2 ^ 63) : to_micros x = some t := by
  unfold to_micros
  simp only [hv, h0, if_true, ht]
  rw [if_pos hr]

theorem to_micros_default_seconds : to_micros 1 = some 1000000 := by
  have hv : to_double (to_double 1 * 1000000) = 1000000 := by
    have h : to_double 1 * 1000000 = 1000000 := by rw [to_double_one]; norm_num
    rw [h, to_double_of_nonneg (by norm_num)]
    exact to_double_abs_exact (q := 1000000) (e := 19) (1000000 * 2 ^ 33) (by norm_num) (by norm_num)
      (by norm_num) (by norm_num)
  exact to_micros_eq hv (by norm_num) (by norm_num [Int.floor_eq_iff]) (by norm_num)

theorem to_micros_default_rate : to_micros (1 / 1000) = some 1000 := by
  have hv : to_double (to_double (1 / 1000) * 1000000) = 1000 := by
    rw [to_double_default_rate, to_double_of_nonneg (by norm_num)]
    have hr : round_even ((4611686018427388 * 2 ^ (-62 : Int) * 1000000 : ℚ)
        / 2 ^ ((9 : Int) - 52)) = 8796093022208000 := by
      apply round_even_eq <;> norm_num
    rw [to_double_abs_eq (e := 9) (by norm_num) (by norm_num) (by norm_num) hr]
    norm_num
  exact to_micros_eq hv (by norm_num) (by norm_num [Int.floor_eq_iff]) (by norm_num)

theorem to_double_two : to_double 2 = 2 := by
  rw [to_double_of_nonneg (by norm_num)]
  exact to_double_abs_exact (e := 1) (2 ^ 52) (by norm_num) (by norm_num) (by norm_num)
    (by norm_num)

theorem to_double_ten_billion : to_double 10000000000 = 10000000000 := by
  rw [to_double_of_nonneg (by norm_num)]
  exact to_double_abs_exact (e := 33) (10000000000 * 2 ^ 19) (by norm_num) (by norm_num)
    (by norm_num) (by norm_num)

theorem to_micros_two : to_micros 2 = some 2000000 := by
  have hv : to_double (to_double 2 * 1000000) = 2000000 := by
    have h : to_double 2 * 1000000 = 2000000 := by rw [to_double_two]; norm_num
    rw [h, to_double_of_nonneg (by norm_num)]
    exact to_double_abs_exact (q := 2000000) (e := 20) (2000000 * 2 ^ 32) (by norm_num) (by norm_num)
      (by norm_num) (by norm_num)
  exact to_micros_eq hv (by norm_num) (by norm_num [Int.floor_eq_iff]) (by norm_num)

theorem to_micros_ten_billion : to_micros 10000000000 = some 10000000000000000 := by
  have hv : to_double (to_double 10000000000 * 1000000) = 10000000000000000 := by
    have h : to_double 10000000000 * 1000000 = 10000000000000000 := by
      rw [to_double_ten_billion]; norm_num
    rw [h, to_double_of_nonneg (by norm_num)]
    exact to_double_abs_exact (q := 10000000000000000) (e := 53) 5000000000000000 (by norm_num) (by norm_num)
      (by norm_num) (by norm_num)
  exact to_micros_eq hv (by norm_num) (by norm_num [Int.floor_eq_iff]) (by norm_num)

theorem wrap64_of_fits {x : Int} (h1 : -2 ^ 63 ≤ x) (h2 : x < 2 ^ 63) : wrap64 x = x := by
  unfold wrap64
  rw [Int.emod_eq_of_lt (by omega) (by omega)]
  omega

/-! ## Strings -/

theorem foldl_append_acc (l : List String) (acc : String) :
    l.foldl (· ++ ·) acc = acc ++ l.foldl (· ++ ·) "" := by
  induction l generalizing acc with
  | nil => simp
  | cons a l ih =>
    simp only [List.foldl_cons]
    rw [ih (acc ++ a), ih ("" ++ a)]
    simp [String.append_assoc]

theorem join_nil : String.join [] = "" := rfl

theorem join_cons (a : String) (l : List String) :
    String.join (a :: l) = a ++ String.join l := by
  simp only [String.join, List.foldl_cons]
  rw [foldl_append_acc]
  simp

theorem join_append (l m : List String) :
    String.join (l ++ m) = String.join l ++ String.join m := by
  induction l with
  | nil => simp [join_nil]
  | cons a l ih => simp [join_cons, ih, String.append_assoc]

theorem emit_semis_eq (fmt : Fmt) (fs : List Frame) (out : String) :
    emit_semis fmt out fs = out ++ String.join (fs.map (fun f => fmt.frame f ++ ";")) := by
  induction fs generalizing out with
  | nil => simp [emit_semis, join_nil]
  | cons f fs ih =>
    have h := ih (out ++ fmt.frame f ++ ";")
    simp only [emit_semis, List.foldl_cons, List.map_cons, join_cons] at h ⊢
    rw [h]
    simp [String.append_assoc]

theorem intercalate_go_eq (s : String) (l : List String) (acc : String) :
    String.intercalate.go acc s l = acc ++ String.join (l.map (fun a => s ++ a)) := by
  induction l generalizing acc with
  | nil => simp [String.intercalate.go, join_nil]
  | cons a l ih =>
    simp only [String.intercalate.go, List.map_cons, join_cons]
    rw [ih]
    simp [String.append_assoc]

theorem join_shift (s x : String) (l : List String) :
    s ++ String.join (l.map (fun a => a ++ s)) ++ x
      = String.join ((l ++ [x]).map (fun a => s ++ a)) := by
  induction l with
  | nil => simp [join_nil, join_cons]
  | cons a l ih =>
    simp only [List.map_cons, join_cons, List.cons_append]
    rw [← ih]
    simp [String.append_assoc]

theorem join_semis_last (l : List String) (x : String) :
    String.join (l.map (fun a => a ++ ";")) ++ x = ";".intercalate (l ++ [x]) := by
  cases l with
  | nil => simp [String.intercalate, String.intercalate.go, join_nil]
  | cons a l =>
    simp only [List.map_cons, join_cons, List.cons_append, String.intercalate]
    rw [intercalate_go_eq, ← join_shift]
    simp [String.append_assoc]

theorem print_buckets_eq (fmt : Fmt) (buckets : List (frames_t × Nat)) (out : String)
    (h : ∀ kv ∈ buckets, kv.1 ≠ []) :
    print_buckets fmt buckets out
      = ⟨out ++ String.join (buckets.map (bucket_line fmt)), "", none⟩ := by
  induction buckets generalizing out with
  | nil => simp [print_buckets, join_nil]
  | cons kv rest ih =>
    obtain ⟨k, v⟩ := kv
    cases k with
    | nil => exact absurd rfl (h ([], v) (List.mem_cons_self _ _))
    | cons last tl =>
      have hrest : ∀ kv ∈ rest, kv.1 ≠ [] := fun kv hkv => h kv (List.mem_cons_of_mem _ hkv)
      simp only [print_buckets, List.map_cons, join_cons]
      rw [ih _ hrest, emit_semis_eq]
      have hline : bucket_line fmt (last :: tl, v)
          = String.join ((tl.reverse.map fmt.frame).map (fun a => a ++ ";"))
              ++ fmt.frame last ++ " " ++ toString v ++ "\n" := by
        simp only [bucket_line, List.reverse_cons, List.map_append, List.map_cons, List.map_nil]
        rw [← join_semis_last]
      rw [hline]
      simp [String.append_assoc, List.map_map, Function.comp_def]

/-- C3. For every idle count and every bucket map whose keys are all
non-empty stacks, `print_frames` writes to standard output first the line
`(idle) N` exactly when the idle count `N` is greater than 0, and then one
line per bucket: the frames of the bucket from the outermost to the innermost
(the reverse of the stored order) with a single `;` between neighbours and
none after the last, a space, the count, a newline.  Nothing is written to
standard error. -/
theorem print_frames_report (fmt : Fmt) (idle : Nat) (buckets : List (frames_t × Nat))
    (h : ∀ kv ∈ buckets, kv.1 ≠ []) :
    (print_frames fmt idle buckets).out
        = (if 0 < idle then "(idle) " ++ toString idle ++ "\n" else "")
            ++ String.join (buckets.map (bucket_line fmt))
      ∧ (print_frames fmt idle buckets).err = "" := by
  unfold print_frames
  rw [print_buckets_eq fmt buckets _ h]
  simp [Nat.pos_iff_ne_zero]

/-! ## The sampling loop on a complete run -/

theorem take_sample_ok (o : Options) (x : Sample) (st : LoopState)
    (h : x.reads_ok = true) :
    (take_sample o x st).2 = .ok (tally o st x) := by
  unfold Sample.reads_ok at h
  unfold take_sample tally Sample.stack_of Sample.addr Sample.frames
  cases hfa : x.frame_addr with
  | error e => simp [hfa] at h
  | ok a =>
    by_cases ha : a = 0
    · simp [ha]
    · cases hst : x.stack with
      | error e => simp [hfa, hst, ha] at h
      | ok fs => simp [ha]

theorem loop_complete (o : Options) (tick : Nat) (interval end_ : Int)
    (ss : List Sample) (st : LoopState)
    (h : complete_run tick interval end_ ss = true) :
    (sampling_loop o tick interval end_ ss st).exit = .done
      ∧ (sampling_loop o tick interval end_ ss st).state = ss.foldl (tally o) st := by
  induction ss generalizing st with
  | nil => simp [complete_run] at h
  | cons x rest ih =>
    simp only [complete_run, Bool.and_eq_true] at h
    obtain ⟨hx, h⟩ := h
    have hts := take_sample_ok o x st hx
    unfold sampling_loop
    rcases hp : take_sample o x st with ⟨ev, res⟩
    rw [hp] at hts
    simp only at hts
    subst hts
    by_cases hb : time_add tick x.now interval ≥ end_
    · simp only [hb, if_true] at h ⊢
      simp only [List.isEmpty_iff] at h
      subst h
      simp
    · simp only [hb, if_false, Bool.and_eq_true] at h ⊢
      obtain ⟨⟨hd, ha⟩, hrest⟩ := h
      cases hdv : x.detach with
      | error e => simp [hdv, returned_ok] at hd
      | ok u =>
        cases hav : x.attach with
        | error e => simp [hav, returned_ok] at ha
        | ok u2 =>
          simp only [List.foldl_cons]
          exact ih _ hrest

theorem complete_reads_ok (tick : Nat) (interval end_ : Int) (ss : List Sample)
    (h : complete_run tick interval end_ ss = true) : ∀ x ∈ ss, x.reads_ok = true := by
  induction ss with
  | nil => simp
  | cons x rest ih =>
    simp only [complete_run, Bool.and_eq_true] at h
    obtain ⟨hx, h⟩ := h
    intro y hy
    rcases List.mem_cons.1 hy with rfl | hy
    · exact hx
    · by_cases hb : time_add tick x.now interval ≥ end_
      · simp only [hb, if_true, List.isEmpty_iff] at h
        subst h
        simp at hy
      · simp only [hb, if_false, Bool.and_eq_true] at h
        exact ih h.2 y hy

/-! ## The locals after a complete run -/

theorem tally_frame_ts (o : Options) (h : o.include_ts = true) (ss : List Sample)
    (st : LoopState) :
    (ss.foldl (tally o) st).frame_ts
      = st.frame_ts ++ ss.map (fun x => (⟨x.stack_of, x.now⟩ : FrameTS)) := by
  induction ss generalizing st with
  | nil => simp
  | cons x rest ih =>
    simp only [List.foldl_cons, List.map_cons]
    rw [ih]
    have hx : (tally o st x).frame_ts = st.frame_ts ++ [⟨x.stack_of, x.now⟩] := by
      unfold tally record Sample.stack_of
      by_cases ha : x.addr = 0
      · by_cases hi : o.include_idle = true <;> simp [ha, h, hi]
      · have ha2 : ¬ (0 = x.addr) := fun e => ha e.symm
        simp [ha, ha2, h]
    rw [hx]
    simp

theorem find_bucket_add (s k : frames_t) (bs : List (frames_t × Nat)) :
    bucket_find s (bucket_add k bs)
      = if k = s then
          some (match bucket_find s bs with
            | none => 1
            | some v => size_incr v)
        else bucket_find s bs := by
  induction bs with
  | nil =>
    by_cases hk : k = s <;> simp [bucket_add, bucket_find, hk]
  | cons kv rest ih =>
    obtain ⟨k2, v⟩ := kv
    by_cases h2 : k2 = k
    · subst h2
      by_cases hk : k2 = s <;> simp [bucket_add, bucket_find, hk]
    · by_cases hk : k = s
      · subst hk
        simp [bucket_add, bucket_find, h2] at ih ⊢
        exact ih
      · by_cases h3 : k2 = s
        · subst h3
          simp [bucket_add, bucket_find, h2, hk]
        · simp [bucket_add, bucket_find, h2, hk, h3] at ih ⊢
          exact ih

theorem size_incr_eq (n : Nat) (h : n + 1 < SIZE_LIMIT) : size_incr n = n + 1 :=
  Nat.mod_eq_of_lt h

theorem bucket_add_bounds (k : frames_t) (n : Nat) (hn : n + 1 < SIZE_LIMIT)
    (bs : List (frames_t × Nat)) (h : ∀ kv ∈ bs, 0 < kv.2 ∧ kv.2 ≤ n) :
    ∀ kv ∈ bucket_add k bs, 0 < kv.2 ∧ kv.2 ≤ n + 1 := by
  induction bs with
  | nil =>
    intro kv hkv
    simp only [bucket_add, List.mem_singleton] at hkv
    subst hkv
    simp
  | cons kv0 rest ih =>
    obtain ⟨k2, v⟩ := kv0
    have h0 := h (k2, v) (List.mem_cons_self _ _)
    have hrest : ∀ kv ∈ rest, 0 < kv.2 ∧ kv.2 ≤ n := fun kv hkv =>
      h kv (List.mem_cons_of_mem _ hkv)
    intro kv hkv
    by_cases h2 : k2 = k
    · simp only [bucket_add, h2, if_true, List.mem_cons] at hkv
      rcases hkv with rfl | hkv
      · have : size_incr v = v + 1 := size_incr_eq v (by omega)
        simp only [this]
        omega
      · have := hrest kv hkv
        omega
    · simp only [bucket_add, h2, if_false, List.mem_cons] at hkv
      rcases hkv with rfl | hkv
      · simp only at h0 ⊢
        omega
      · exact ih hrest kv hkv

theorem sum_bucket_add (k : frames_t) (n : Nat) (hn : n + 1 < SIZE_LIMIT)
    (bs : List (frames_t × Nat)) (h : ∀ kv ∈ bs, kv.2 ≤ n) :
    ((bucket_add k bs).map Prod.snd).sum = (bs.map Prod.snd).sum + 1 := by
  induction bs with
  | nil => simp [bucket_add]
  | cons kv0 rest ih =>
    obtain ⟨k2, v⟩ := kv0
    have h0 := h (k2, v) (List.mem_cons_self _ _)
    have hrest : ∀ kv ∈ rest, kv.2 ≤ n := fun kv hkv => h kv (List.mem_cons_of_mem _ hkv)
    by_cases h2 : k2 = k
    · have : size_incr v = v + 1 := size_incr_eq v (by simp only at h0; omega)
      simp only [bucket_add, h2, if_true, List.map_cons, List.sum_cons, this]
      omega
    · simp only [bucket_add, h2, if_false, List.map_cons, List.sum_cons, ih hrest]
      omega

theorem tally_hist (o : Options) (h : o.include_ts = false) (st : LoopState) (x : Sample) :
    tally o st x
      = if x.addr = 0 then
          (if o.include_idle then { st with idle := size_incr st.idle } else st)
        else { st with buckets := bucket_add x.frames st.buckets } := by
  unfold tally record Sample.stack_of
  by_cases ha : x.addr = 0
  · simp [ha, h]
  · simp [ha, h]

theorem hit_eq (s : frames_t) (x : Sample) (h : x.reads_ok = true) :
    x.hit s = (decide (x.addr ≠ 0) && decide (x.frames = s)) := by
  unfold Sample.reads_ok at h
  unfold Sample.hit Sample.addr Sample.frames
  cases hfa : x.frame_addr with
  | error e => simp [hfa] at h
  | ok a =>
    cases hst : x.stack with
    | error e =>
      simp only [hfa, hst, Bool.or_false, decide_eq_true_eq] at h
      simp [h]
    | ok fs => simp

theorem hist_counts_bounded (o : Options) (h : o.include_ts = false) (ss : List Sample)
    (hlen : ss.length < SIZE_LIMIT) :
    ∀ kv ∈ (ss.foldl (tally o) LoopState.initial).buckets, 0 < kv.2 ∧ kv.2 ≤ ss.length := by
  induction ss using List.reverseRecOn with
  | nil => simp [LoopState.initial]
  | append_singleton l a ih =>
    simp only [List.length_append, List.length_singleton] at hlen
    have ih := ih (by omega)
    simp only [List.foldl_append, List.foldl_cons, List.foldl_nil, List.length_append,
      List.length_singleton]
    rw [tally_hist o h]
    by_cases ha : a.addr = 0
    · intro kv hkv
      have hkv2 : kv ∈ (l.foldl (tally o) LoopState.initial).buckets := by
        by_cases hi : o.include_idle = true <;> simpa [ha, hi] using hkv
      have := ih kv hkv2
      omega
    · simp only [ha, if_false]
      exact bucket_add_bounds _ _ hlen _ ih

theorem hist_find (o : Options) (h : o.include_ts = false) (ss : List Sample)
    (hok : ∀ x ∈ ss, x.reads_ok = true) (hlen : ss.length < SIZE_LIMIT) (s : frames_t) :
    bucket_find s (ss.foldl (tally o) LoopState.initial).buckets
      = if ss.countP (Sample.hit s) = 0 then none else some (ss.countP (Sample.hit s)) := by
  induction ss using List.reverseRecOn with
  | nil => simp [LoopState.initial, bucket_find]
  | append_singleton l a ih =>
    simp only [List.length_append, List.length_singleton] at hlen
    have ih := ih (fun x hx => hok x (List.mem_append_left _ hx)) (by omega)
    have hcount : l.countP (Sample.hit s) ≤ l.length := List.countP_le_length _
    have haok := hok a (List.mem_append_right _ (List.mem_singleton_self a))
    simp only [List.foldl_append, List.foldl_cons, List.foldl_nil, List.countP_append,
      List.countP_singleton]
    rw [tally_hist o h, hit_eq s a haok]
    by_cases ha : a.addr = 0
    · have hb : (l.foldl (tally o) LoopState.initial).buckets
          = (if o.include_idle = true then
              { l.foldl (tally o) LoopState.initial with
                idle := size_incr (l.foldl (tally o) LoopState.initial).idle }
            else l.foldl (tally o) LoopState.initial).buckets := by
        by_cases hi : o.include_idle = true <;> simp [hi]
      simp only [ha, if_true, ← hb, ih]
      simp
    · simp only [ha, if_false, find_bucket_add, ih]
      by_cases hs : a.frames = s
      · by_cases h0 : l.countP (Sample.hit s) = 0
        · simp [hs, h0, ha]
        · have : size_incr (l.countP (Sample.hit s)) = l.countP (Sample.hit s) + 1 :=
            size_incr_eq _ (by omega)
          simp [hs, h0, ha, this]
      · simp [hs, ha]

theorem hist_total (o : Options) (h : o.include_ts = false) (hi : o.include_idle = true)
    (ss : List Sample) (hlen : ss.length < SIZE_LIMIT) :
    ((ss.foldl (tally o) LoopState.initial).buckets.map Prod.snd).sum
        + (ss.foldl (tally o) LoopState.initial).idle = ss.length := by
  induction ss using List.reverseRecOn with
  | nil => simp [LoopState.initial]
  | append_singleton l a ih =>
    simp only [List.length_append, List.length_singleton] at hlen
    have ih := ih (by omega)
    have hb := hist_counts_bounded o h l (by omega)
    simp only [List.foldl_append, List.foldl_cons, List.foldl_nil, List.length_append,
      List.length_singleton]
    rw [tally_hist o h]
    by_cases ha : a.addr = 0
    · have : size_incr (l.foldl (tally o) LoopState.initial).idle
          = (l.foldl (tally o) LoopState.initial).idle + 1 := size_incr_eq _ (by omega)
      simp only [ha, hi, if_true, this]
      omega
    · simp only [ha, if_false]
      rw [sum_bucket_add _ _ hlen _ (fun kv hkv => (hb kv hkv).2)]
      omega

theorem hist_idle_only (o : Options) (h : o.include_ts = false) (ss : List Sample)
    (hidle : ∀ x ∈ ss, x.addr = 0) (hlen : ss.length < SIZE_LIMIT) :
    (ss.foldl (tally o) LoopState.initial).buckets = []
      ∧ (ss.foldl (tally o) LoopState.initial).idle
          = if o.include_idle then ss.length else 0 := by
  induction ss using List.reverseRecOn with
  | nil => simp [LoopState.initial]
  | append_singleton l a ih =>
    simp only [List.length_append, List.length_singleton] at hlen
    have ih := ih (fun x hx => hidle x (List.mem_append_left _ hx)) (by omega)
    have ha := hidle a (List.mem_append_right _ (List.mem_singleton_self a))
    simp only [List.foldl_append, List.foldl_cons, List.foldl_nil, List.length_append,
      List.length_singleton]
    rw [tally_hist o h]
    by_cases hi : o.include_idle = true
    · have : size_incr l.length = l.length + 1 := size_incr_eq _ hlen
      simp [ha, hi, ih, this]
    · simp [ha, hi, ih]

theorem report_complete (fmt : Fmt) (o : Options) (tick : Nat) (interval end_ : Int)
    (ss : List Sample) (events : List Event)
    (h : complete_run tick interval end_ ss = true) :
    (sample_and_report fmt o tick interval end_ ss events).ending = .returned 0
      ∧ (sample_and_report fmt o tick interval end_ ss events).out
          = (if o.include_ts then
              print_frames_ts fmt (ss.foldl (tally o) LoopState.initial).frame_ts
            else
              print_frames fmt (ss.foldl (tally o) LoopState.initial).idle
                (ss.foldl (tally o) LoopState.initial).buckets).out := by
  obtain ⟨hexit, hstate⟩ := loop_complete o tick interval end_ ss LoopState.initial h
  unfold sample_and_report
  simp only [hexit, hstate]
  exact ⟨trivial, trivial⟩

/-! ## The claims -/

/-- C1. In histogram mode (`include_ts` off), after a run of the sampling loop
that ends by its `break` over the samples `ss` (fewer than `2 ^ 64` of them,
so that no `size_t` count wraps), the bucket map holds every stack `s` with a
count equal to the number of non-idle samples whose `GetStack` result is `s`,
holds no entry for `s` when that number is zero, and every stored count is
strictly positive. -/
theorem histogram_counts (o : Options) (tick : Nat) (interval end_ : Int)
    (ss : List Sample) (s : frames_t)
    (hts : o.include_ts = false)
    (hrun : complete_run tick interval end_ ss = true)
    (hlen : ss.length < SIZE_LIMIT) :
    (sampling_loop o tick interval end_ ss LoopState.initial).exit = .done
      ∧ bucket_find s (sampling_loop o tick interval end_ ss LoopState.initial).state.buckets
          = (if ss.countP (Sample.hit s) = 0 then none
             else some (ss.countP (Sample.hit s)))
      ∧ ∀ kv ∈ (sampling_loop o tick interval end_ ss LoopState.initial).state.buckets,
          0 < kv.2 := by
  obtain ⟨hexit, hstate⟩ := loop_complete o tick interval end_ ss LoopState.initial hrun
  refine ⟨hexit, ?_, ?_⟩
  · rw [hstate]
    exact hist_find o hts ss (complete_reads_ok tick interval end_ ss hrun) hlen s
  · rw [hstate]
    exact fun kv hkv => (hist_counts_bounded o hts ss hlen kv hkv).1

/-- Witness of C1: a run of three samples, two of them with the stack `g`
called from `f`. -/
theorem histogram_counts_witness :
    (⟨true, false, 1, 1 / 1000⟩ : Options).include_ts = false
      ∧ complete_run 1 10 100 [busy_sample 5, idle_sample 50, busy_sample 95] = true
      ∧ [busy_sample 5, idle_sample 50, busy_sample 95].length < SIZE_LIMIT
      ∧ bucket_find [frame_g, frame_f]
          (sampling_loop ⟨true, false, 1, 1 / 1000⟩ 1 10 100
            [busy_sample 5, idle_sample 50, busy_sample 95] LoopState.initial).state.buckets
          = (if [busy_sample 5, idle_sample 50, busy_sample 95].countP
                (Sample.hit [frame_g, frame_f]) = 0 then none
             else some ([busy_sample 5, idle_sample 50, busy_sample 95].countP
                (Sample.hit [frame_g, frame_f]))) :=
  ⟨rfl, by decide, by decide,
    (histogram_counts ⟨true, false, 1, 1 / 1000⟩ 1 10 100
      [busy_sample 5, idle_sample 50, busy_sample 95] [frame_g, frame_f]
      rfl (by decide) (by decide)).2.1⟩

/-- C2. In histogram mode with idle inclusion enabled, when a run of the
sampling loop over the samples `ss` (fewer than `2 ^ 64` of them) ends by its
`break`, the sum of all bucket-map counts plus the idle counter equals the
number of samples taken. -/
theorem histogram_total (o : Options) (tick : Nat) (interval end_ : Int)
    (ss : List Sample)
    (hts : o.include_ts = false) (hidle : o.include_idle = true)
    (hrun : complete_run tick interval end_ ss = true)
    (hlen : ss.length < SIZE_LIMIT) :
    (sampling_loop o tick interval end_ ss LoopState.initial).exit = .done
      ∧ ((sampling_loop o tick interval end_ ss LoopState.initial).state.buckets.map
            Prod.snd).sum
          + (sampling_loop o tick interval end_ ss LoopState.initial).state.idle
          = ss.length := by
  obtain ⟨hexit, hstate⟩ := loop_complete o tick interval end_ ss LoopState.initial hrun
  refine ⟨hexit, ?_⟩
  rw [hstate]
  exact hist_total o hts hidle ss hlen

/-- Witness of C2: a run of three samples, one of them idle. -/
theorem histogram_total_witness :
    (⟨true, false, 1, 1 / 1000⟩ : Options).include_ts = false
      ∧ (⟨true, false, 1, 1 / 1000⟩ : Options).include_idle = true
      ∧ complete_run 1 10 100 [busy_sample 5, idle_sample 50, busy_sample 95] = true
      ∧ ((sampling_loop ⟨true, false, 1, 1 / 1000⟩ 1 10 100
            [busy_sample 5, idle_sample 50, busy_sample 95]
            LoopState.initial).state.buckets.map Prod.snd).sum
          + (sampling_loop ⟨true, false, 1, 1 / 1000⟩ 1 10 100
            [busy_sample 5, idle_sample 50, busy_sample 95] LoopState.initial).state.idle
          = 3 :=
  ⟨rfl, rfl, by decide,
    (histogram_total ⟨true, false, 1, 1 / 1000⟩ 1 10 100
      [busy_sample 5, idle_sample 50, busy_sample 95] rfl rfl (by decide) (by decide)).2⟩

/-- C5. In timestamped mode, whatever the idle flag, a run of the sampling
loop that ends by its `break` over the samples `ss` hands `print_frames_ts` a
trace with exactly one record per sample, in sample order: the stack of the
record is the stack of the sample (empty when the frame address was zero) and
its timestamp is the clock reading of the sample; so the timestamps are
non-decreasing from each record to the next whenever the clock readings
are. -/
theorem timestamped_trace (fmt : Fmt) (o : Options) (tick : Nat) (interval end_ : Int)
    (ss : List Sample) (events : List Event)
    (hts : o.include_ts = true)
    (hrun : complete_run tick interval end_ ss = true) :
    (sampling_loop o tick interval end_ ss LoopState.initial).exit = .done
      ∧ (sampling_loop o tick interval end_ ss LoopState.initial).state.frame_ts
          = ss.map (fun x => (⟨x.stack_of, x.now⟩ : FrameTS))
      ∧ (sampling_loop o tick interval end_ ss LoopState.initial).state.frame_ts.length
          = ss.length
      ∧ (sample_and_report fmt o tick interval end_ ss events).out
          = (print_frames_ts fmt (ss.map (fun x => (⟨x.stack_of, x.now⟩ : FrameTS)))).out
      ∧ (List.Chain' (fun a b => a ≤ b) (ss.map Sample.now) →
          List.Chain' (fun a b => a ≤ b)
            ((sampling_loop o tick interval end_ ss LoopState.initial).state.frame_ts.map
              FrameTS.ts)) := by
  obtain ⟨hexit, hstate⟩ := loop_complete o tick interval end_ ss LoopState.initial hrun
  have htrace : (ss.foldl (tally o) LoopState.initial).frame_ts
      = ss.map (fun x => (⟨x.stack_of, x.now⟩ : FrameTS)) := by
    rw [tally_frame_ts o hts]
    simp [LoopState.initial]
  have hrep := (report_complete fmt o tick interval end_ ss events hrun).2
  rw [hstate, htrace]
  refine ⟨hexit, rfl, by simp, ?_, ?_⟩
  · rw [hrep, htrace]
    simp [hts]
  · intro hsorted
    simpa [List.map_map, Function.comp_def] using hsorted

/-- Witness of C5: a timestamped run of three samples, the second idle. -/
theorem timestamped_trace_witness :
    (⟨true, true, 1, 1 / 1000⟩ : Options).include_ts = true
      ∧ complete_run 1 10 100 [busy_sample 5, idle_sample 50, busy_sample 95] = true
      ∧ (sampling_loop ⟨true, true, 1, 1 / 1000⟩ 1 10 100
            [busy_sample 5, idle_sample 50, busy_sample 95] LoopState.initial).state.frame_ts
          = [busy_sample 5, idle_sample 50, busy_sample 95].map
              (fun x => (⟨x.stack_of, x.now⟩ : FrameTS)) :=
  ⟨rfl, by decide,
    (timestamped_trace fmt0 ⟨true, true, 1, 1 / 1000⟩ 1 10 100
      [busy_sample 5, idle_sample 50, busy_sample 95] [] rfl (by decide)).2.1⟩

/-- C9. In histogram mode, when every sample of a run of the sampling loop
that ends by its `break` reads a zero frame address (`n` samples, fewer than
`2 ^ 64`), the report on standard output is exactly the line `(idle) n` when
idle is included and is empty when idle is excluded; no bucket is created,
and with exclusion the idle counter stays 0. -/
theorem idle_only_report (fmt : Fmt) (o : Options) (tick : Nat) (interval end_ : Int)
    (ss : List Sample) (events : List Event)
    (hts : o.include_ts = false)
    (hrun : complete_run tick interval end_ ss = true)
    (hidle : ∀ x ∈ ss, x.frame_addr = .ok 0)
    (hlen : ss.length < SIZE_LIMIT) :
    (sample_and_report fmt o tick interval end_ ss events).ending = .returned 0
      ∧ (sample_and_report fmt o tick interval end_ ss events).out
          = (if o.include_idle then "(idle) " ++ toString ss.length ++ "\n" else "")
      ∧ (sampling_loop o tick interval end_ ss LoopState.initial).state.buckets = []
      ∧ (o.include_idle = false →
          (sampling_loop o tick interval end_ ss LoopState.initial).state.idle = 0) := by
  obtain ⟨_, hstate⟩ := loop_complete o tick interval end_ ss LoopState.initial hrun
  obtain ⟨hend, hout⟩ := report_complete fmt o tick interval end_ ss events hrun
  have haddr : ∀ x ∈ ss, x.addr = 0 := by
    intro x hx
    simp [Sample.addr, hidle x hx]
  obtain ⟨hb, hi⟩ := hist_idle_only o hts ss haddr hlen
  have hpos : ss.length ≠ 0 := by
    intro h0
    have : ss = [] := List.length_eq_zero.1 h0
    subst this
    simp [complete_run] at hrun
  refine ⟨hend, ?_, ?_, ?_⟩
  · rw [hout, hb, hi]
    by_cases hinc : o.include_idle = true
    · simp [hts, hinc, print_frames, print_buckets, hpos]
    · simp [hts, hinc, print_frames, print_buckets]
  · rw [hstate, hb]
  · intro hex
    rw [hstate, hi]
    simp [hex]

/-- Witness of C9: two idle samples with idle included. -/
theorem idle_only_report_witness :
    (⟨true, false, 1, 1 / 1000⟩ : Options).include_ts = false
      ∧ complete_run 1 10 100 [idle_sample 5, idle_sample 95] = true
      ∧ (∀ x ∈ [idle_sample 5, idle_sample 95], x.frame_addr = .ok 0)
      ∧ (sample_and_report fmt0 ⟨true, false, 1, 1 / 1000⟩ 1 10 100
            [idle_sample 5, idle_sample 95] []).out
          = (if (⟨true, false, 1, 1 / 1000⟩ : Options).include_idle
              then "(idle) " ++ toString [idle_sample 5, idle_sample 95].length ++ "\n"
              else "") :=
  ⟨rfl, by decide, by simp [idle_sample],
    (idle_only_report fmt0 ⟨true, false, 1, 1 / 1000⟩ 1 10 100
      [idle_sample 5, idle_sample 95] [] rfl (by decide) (by simp [idle_sample])
      (by decide)).2.1⟩

/-! ## The single-shot branch and the first iteration -/

theorem foldl_emit (fmt : Fmt) (sep : String) (fs : List Frame) (out : String) :
    fs.foldl (fun acc f => acc ++ fmt.frame f ++ sep) out
      = out ++ String.join (fs.map (fun f => fmt.frame f ++ sep)) := by
  induction fs generalizing out with
  | nil => simp [join_nil]
  | cons f fs ih =>
    simp only [List.foldl_cons, List.map_cons, join_cons]
    rw [ih]
    simp [String.append_assoc]

theorem reads_ok_cases (x : Sample) (h : x.reads_ok = true) :
    (x.frame_addr = .ok 0 ∧ x.addr = 0)
      ∨ ∃ a fs, a ≠ 0 ∧ x.frame_addr = .ok a ∧ x.stack = .ok fs ∧ x.addr = a ∧ x.frames = fs := by
  unfold Sample.reads_ok at h
  unfold Sample.addr Sample.frames
  cases hfa : x.frame_addr with
  | error e => simp [hfa] at h
  | ok a =>
    by_cases ha : a = 0
    · left
      simp [ha]
    · cases hst : x.stack with
      | error e => simp [hfa, hst, ha] at h
      | ok fs => exact Or.inr ⟨a, fs, ha, rfl, rfl, rfl, rfl⟩

theorem take_sample_events (o : Options) (x : Sample) (st : LoopState) :
    (take_sample o x st).1 = [⟨.FirstFrameAddr, false⟩]
      ∨ (take_sample o x st).1 = [⟨.FirstFrameAddr, true⟩, ⟨.now, true⟩]
      ∨ (take_sample o x st).1 = [⟨.FirstFrameAddr, true⟩, ⟨.GetStack, false⟩]
      ∨ (take_sample o x st).1
          = [⟨.FirstFrameAddr, true⟩, ⟨.GetStack, true⟩, ⟨.now, true⟩] := by
  unfold take_sample
  cases x.frame_addr with
  | error e => simp
  | ok a =>
    by_cases ha : a = 0
    · simp [ha]
    · cases x.stack with
      | error e => simp [ha]
      | ok fs => simp [ha]

/-! ## Attach and detach -/

theorem returns_append (fn : Fn) (l m : List Event) :
    returns fn (l ++ m) = returns fn l + returns fn m := by
  simp [returns, List.countP_append]

theorem attached_after_append (b : Bool) (l m : List Event) :
    attached_after b (l ++ m) = attached_after (attached_after b l) m := by
  simp [attached_after, List.foldl_append]

theorem take_sample_quiet (o : Options) (x : Sample) (st : LoopState) :
    returns .PtraceAttach (take_sample o x st).1 = 0
      ∧ returns .PtraceDetach (take_sample o x st).1 = 0
      ∧ (∀ b, attached_after b (take_sample o x st).1 = b)
      ∧ (⟨.PtraceAttach, false⟩ : Event) ∉ (take_sample o x st).1 := by
  rcases take_sample_events o x st with h | h | h | h <;>
    simp [h, returns, attached_after]

theorem loop_events_balanced (o : Options) (tick : Nat) (interval end_ : Int)
    (ss : List Sample) (st : LoopState)
    (h : (⟨.PtraceAttach, false⟩ : Event) ∉ (sampling_loop o tick interval end_ ss st).events) :
    returns .PtraceAttach (sampling_loop o tick interval end_ ss st).events
        = returns .PtraceDetach (sampling_loop o tick interval end_ ss st).events
      ∧ attached_after true (sampling_loop o tick interval end_ ss st).events = true := by
  induction ss generalizing st with
  | nil => simp [sampling_loop, returns, attached_after]
  | cons x rest ih =>
    obtain ⟨hq1, hq2, hq3, hq4⟩ := take_sample_quiet o x st
    unfold sampling_loop at h ⊢
    rcases hp : take_sample o x st with ⟨ev, res⟩
    rw [hp] at hq1 hq2 hq3 hq4 h
    simp only at hq1 hq2 hq3 hq4 h ⊢
    cases res with
    | error e => simp [hq1, hq2, hq3]
    | ok st1 =>
      simp only at h ⊢
      by_cases hb : time_add tick x.now interval ≥ end_
      · simp [hb, hq1, hq2, hq3]
      · simp only [hb, if_false] at h ⊢
        cases hd : x.detach with
        | error e =>
          simp only
          rw [returns_append, returns_append, attached_after_append, hq1, hq2, hq3]
          simp [returns, attached_after]
        | ok u =>
          cases hat : x.attach with
          | error e =>
            rw [hd, hat] at h
            simp at h
          | ok u2 =>
            rw [hd, hat] at h
            simp only [List.mem_append, not_or] at h
            obtain ⟨ih1, ih2⟩ := ih st1 h.2
            have c1 : returns .PtraceAttach [(⟨.PtraceDetach, true⟩ : Event),
                ⟨.sleep_for, true⟩, ⟨.PtraceAttach, true⟩] = 1 := by decide
            have c2 : returns .PtraceDetach [(⟨.PtraceDetach, true⟩ : Event),
                ⟨.sleep_for, true⟩, ⟨.PtraceAttach, true⟩] = 1 := by decide
            have c3 : attached_after true [(⟨.PtraceDetach, true⟩ : Event),
                ⟨.sleep_for, true⟩, ⟨.PtraceAttach, true⟩] = true := by decide
            simp only
            rw [returns_append, returns_append, returns_append, returns_append,
              attached_after_append, attached_after_append, hq1, hq2, hq3, c1, c2, c3, ih1, ih2]
            simp

theorem report_events (fmt : Fmt) (o : Options) (tick : Nat) (interval end_ : Int)
    (ss : List Sample) (events : List Event) :
    (sample_and_report fmt o tick interval end_ ss events).events
      = events ++ (sampling_loop o tick interval end_ ss LoopState.initial).events := by
  unfold sample_and_report
  generalize sampling_loop o tick interval end_ ss LoopState.initial = r
  obtain ⟨exit, state, ev⟩ := r
  cases exit <;> simp [caught]

/-! ## The printers and the option loop at concrete inputs -/

/-- Witness of C3: an idle count of 3 and two buckets. -/
theorem print_frames_report_witness :
    (∀ kv ∈ [([frame_g, frame_f], 5), ([frame_f], 2)], kv.1 ≠ [])
      ∧ (print_frames fmt0 3 [([frame_g, frame_f], 5), ([frame_f], 2)]).out
          = (if 0 < 3 then "(idle) " ++ toString 3 ++ "\n" else "")
              ++ String.join
                  ([([frame_g, frame_f], 5), ([frame_f], 2)].map (bucket_line fmt0)) :=
  ⟨by decide,
    (print_frames_report fmt0 3 [([frame_g, frame_f], 5), ([frame_f], 2)] (by decide)).1⟩

/-- C4 at a failing input: for a trace of one record with the stack `g`
called from `f` and one idle record, `print_frames_ts` ends the line of
frames with a `;` after the last frame, and writes the idle line as `(idle)`
followed by a space. -/
theorem print_frames_ts_trailing :
    (print_frames_ts fmt0 [⟨[frame_g, frame_f], 5⟩, ⟨[], 7⟩]).out
      = "5\na.py:f:3;a.py:g:7;\n7\n(idle) \n" := by
  decide

/-- C10 at a failing input: with `-t` the option loop ends with `include_ts`
still false, while `--timestamp` sets it; the run of `pyflame -t 1234` is the
run of `pyflame 1234`. -/
theorem short_t_not_recognised (lib : Lib) (w : World) :
    (parse_options lib ["pyflame", "-t", "1234"]).include_ts = some false
      ∧ (parse_options lib ["pyflame", "--timestamp", "1234"]).include_ts = some true
      ∧ main lib ["pyflame", "-t", "1234"] w = main lib ["pyflame", "1234"] w :=
  ⟨rfl, rfl, rfl⟩

/-! ## The single-shot run -/

/-- C7. When `seconds` is 0 and no call throws, `main` takes exactly one
sample and returns 0: `FirstFrameAddr` is called exactly once, `GetStack` at
most once, there is no sleep, and standard output is (after the clock reading
on a line of its own when `include_ts` is set) the line `(idle)` when the
frame address is zero and otherwise the frames of the one stack from the
outermost to the innermost, one per line; no count is printed. -/
theorem single_shot_run (fmt : Fmt) (o : Options) (w : World) (x : Sample)
    (rest : List Sample)
    (hattach : returned_ok w.attach = true) (hns : returned_ok w.ns = true)
    (htstate : returned_ok w.tstate = true)
    (hseconds : o.seconds = 0)
    (hsamples : w.samples = x :: rest) (hx : x.reads_ok = true) :
    (main_try fmt o w).ending = .returned 0
      ∧ calls .FirstFrameAddr (main_try fmt o w).events = 1
      ∧ calls .GetStack (main_try fmt o w).events ≤ 1
      ∧ calls .sleep_for (main_try fmt o w).events = 0
      ∧ (main_try fmt o w).out
          = (if o.include_ts then fmt.ts x.now ++ "\n" else "")
            ++ (if x.addr = 0 then "(idle)\n"
                else String.join (x.frames.reverse.map (fun f => fmt.frame f ++ "\n"))) := by
  unfold main_try
  cases ha : w.attach with
  | error e => simp [ha, returned_ok] at hattach
  | ok u1 =>
    cases hn : w.ns with
    | error e => simp [hn, returned_ok] at hns
    | ok u2 =>
      cases ht : w.tstate with
      | error e => simp [ht, returned_ok] at htstate
      | ok addr =>
        simp only [hseconds, to_double_zero, ne_eq, not_true_eq_false, if_false, hsamples,
          single_shot]
        rcases reads_ok_cases x hx with ⟨hfa, h0⟩ | ⟨a, fs, hne, hfa, hst, haddr, hfs⟩
        · by_cases hts : o.include_ts = true <;>
            simp [hfa, h0, hts, calls]
        · by_cases hts : o.include_ts = true <;>
            simp [hfa, hst, haddr, hfs, hne, hts, calls, foldl_emit, -List.foldl_reverse]

/-- Witness of C7: a single shot at a running target. -/
theorem single_shot_run_witness :
    returned_ok (world0 0 [busy_sample 5]).attach = true
      ∧ (⟨true, false, 0, 1 / 1000⟩ : Options).seconds = 0
      ∧ (busy_sample 5).reads_ok = true
      ∧ (main_try fmt0 ⟨true, false, 0, 1 / 1000⟩ (world0 0 [busy_sample 5])).ending
          = .returned 0 :=
  ⟨rfl, rfl, rfl,
    (single_shot_run fmt0 ⟨true, false, 0, 1 / 1000⟩ (world0 0 [busy_sample 5])
      (busy_sample 5) [] rfl rfl rfl rfl rfl rfl).1⟩

/-! ## The sampling branch of `main` -/

theorem main_try_sampling (fmt : Fmt) (o : Options) (w : World) (interval span : Int)
    (hattach : returned_ok w.attach = true) (hns : returned_ok w.ns = true)
    (htstate : returned_ok w.tstate = true)
    (hseconds : to_double o.seconds ≠ 0)
    (hinterval : to_micros o.sample_rate = some interval)
    (hspan : to_micros o.seconds = some span) :
    main_try fmt o w
      = sample_and_report fmt o w.tick interval (time_add w.tick w.start span) w.samples
          [⟨.PtraceAttach, true⟩, ⟨.Namespace, true⟩, ⟨.ThreadStateAddr, true⟩,
            ⟨.now, true⟩] := by
  unfold main_try
  cases ha : w.attach with
  | error e => simp [ha, returned_ok] at hattach
  | ok u1 =>
    cases hn : w.ns with
    | error e => simp [hn, returned_ok] at hns
    | ok u2 =>
      cases ht : w.tstate with
      | error e => simp [ht, returned_ok] at htstate
      | ok addr =>
        simp only [hseconds, ne_eq, not_false_eq_true, if_true, hinterval, hspan,
          List.cons_append, List.nil_append]

theorem to_micros_below {d r : ℚ} {interval : Int} (hd : 0 < to_double d)
    (hr : to_double d < to_double r) (hinterval : to_micros r = some interval) :
    ∃ span, to_micros d = some span ∧ 0 ≤ span ∧ span ≤ interval := by
  have ha : (0 : ℚ) < to_double d * 1000000 := by positivity
  have hab : to_double d * 1000000 ≤ to_double r * 1000000 := by
    have := le_of_lt hr
    nlinarith
  have hb : (0 : ℚ) < to_double r * 1000000 := lt_of_lt_of_le ha hab
  have hpa : 0 ≤ to_double (to_double d * 1000000) := by
    rw [to_double_of_nonneg (le_of_lt ha)]
    exact to_double_abs_nonneg (le_of_lt ha)
  have hpb : 0 ≤ to_double (to_double r * 1000000) := by
    rw [to_double_of_nonneg (le_of_lt hb)]
    exact to_double_abs_nonneg (le_of_lt hb)
  have hmono : to_double (to_double d * 1000000) ≤ to_double (to_double r * 1000000) := by
    rw [to_double_of_nonneg (le_of_lt ha), to_double_of_nonneg (le_of_lt hb)]
    exact to_double_abs_mono ha hab
  have hfl : ⌊to_double (to_double d * 1000000)⌋ ≤ ⌊to_double (to_double r * 1000000)⌋ :=
    Int.floor_le_floor hmono
  have hfn : 0 ≤ ⌊to_double (to_double d * 1000000)⌋ := Int.floor_nonneg.2 hpa
  unfold to_micros at hinterval ⊢
  simp only [hpa, hpb, if_true] at hinterval ⊢
  split_ifs at hinterval with hrange
  simp only [Option.some.injEq] at hinterval
  subst hinterval
  refine ⟨⌊to_double (to_double d * 1000000)⌋, ?_, hfn, hfl⟩
  rw [if_pos ⟨by omega, by omega⟩]

/-- C8, as the code has it. For a duration `D > 0` and a rate `R > D` (as
`double` values) for which the cast of `R * 1000000` to `long` is defined and
the interval, converted to clock ticks and added to the clock reading of
the first sample, stays below `2 ^ 63` (so that nothing wraps in 64 bits):
when no call throws and the clock reading after the first sample is not
earlier than the start reading, the test of line 192 holds on the first
iteration, the loop takes exactly one sample and breaks, with no detach, no
sleep and no second read, and `main` returns 0. -/
theorem rate_above_duration (fmt : Fmt) (o : Options) (w : World) (x : Sample)
    (rest : List Sample) (interval : Int)
    (hattach : returned_ok w.attach = true) (hns : returned_ok w.ns = true)
    (htstate : returned_ok w.tstate = true)
    (hD : 0 < to_double o.seconds) (hR : to_double o.seconds < to_double o.sample_rate)
    (hinterval : to_micros o.sample_rate = some interval)
    (hticks : (w.tick : Int) * interval < 2 ^ 63)
    (hsum : x.now + (w.tick : Int) * interval < 2 ^ 63)
    (hstart : -2 ^ 63 ≤ w.start)
    (hsamples : w.samples = x :: rest) (hx : x.reads_ok = true)
    (hclock : w.start ≤ x.now) :
    (∃ span, to_micros o.seconds = some span
        ∧ time_add w.tick x.now interval ≥ time_add w.tick w.start span)
      ∧ (main_try fmt o w).ending = .returned 0
      ∧ (main_try fmt o w).events
          = [⟨.PtraceAttach, true⟩, ⟨.Namespace, true⟩, ⟨.ThreadStateAddr, true⟩,
              ⟨.now, true⟩] ++ (take_sample o x LoopState.initial).1
      ∧ calls .FirstFrameAddr (main_try fmt o w).events = 1
      ∧ calls .PtraceDetach (main_try fmt o w).events = 0
      ∧ calls .sleep_for (main_try fmt o w).events = 0 := by
  obtain ⟨span, hspan, hspan0, hle⟩ := to_micros_below hD hR hinterval
  have htick0 : (0 : Int) ≤ (w.tick : Int) := Int.ofNat_nonneg _
  have hm1 : (0 : Int) ≤ (w.tick : Int) * span := mul_nonneg htick0 hspan0
  have hm2 : (w.tick : Int) * span ≤ (w.tick : Int) * interval :=
    mul_le_mul_of_nonneg_left hle htick0
  have htest : time_add w.tick x.now interval ≥ time_add w.tick w.start span := by
    unfold time_add
    rw [wrap64_of_fits (x := (w.tick : Int) * interval) (by omega) (by omega),
      wrap64_of_fits (x := (w.tick : Int) * span) (by omega) (by omega),
      wrap64_of_fits (x := x.now + (w.tick : Int) * interval) (by omega) (by omega),
      wrap64_of_fits (x := w.start + (w.tick : Int) * span) (by omega) (by omega)]
    omega
  have hne : to_double o.seconds ≠ 0 := ne_of_gt hD
  have hloop : sampling_loop o w.tick interval (time_add w.tick w.start span) (x :: rest)
      LoopState.initial
        = ⟨.done, tally o LoopState.initial x, (take_sample o x LoopState.initial).1⟩ := by
    have hts := take_sample_ok o x LoopState.initial hx
    unfold sampling_loop
    rcases hp : take_sample o x LoopState.initial with ⟨ev, res⟩
    rw [hp] at hts
    simp only at hts
    subst hts
    simp [htest]
  refine ⟨⟨span, hspan, htest⟩, ?_⟩
  rw [main_try_sampling fmt o w interval span hattach hns htstate hne hinterval hspan]
  simp only [hsamples, sample_and_report, hloop]
  rcases take_sample_events o x LoopState.initial with h | h | h | h <;>
    simp [h, calls]

/-- Witness of C8: one second of sampling at a rate of two seconds, on a
nanosecond clock. -/
theorem rate_above_duration_witness :
    0 < to_double (⟨true, false, 1, 2⟩ : Options).seconds
      ∧ to_double (⟨true, false, 1, 2⟩ : Options).seconds
          < to_double (⟨true, false, 1, 2⟩ : Options).sample_rate
      ∧ to_micros (⟨true, false, 1, 2⟩ : Options).sample_rate = some 2000000
      ∧ (world0 0 [busy_sample 5, busy_sample 9]).start ≤ (busy_sample 5).now
      ∧ (main_try fmt0 ⟨true, false, 1, 2⟩ (world0 0 [busy_sample 5, busy_sample 9])).ending
          = .returned 0
      ∧ calls .FirstFrameAddr
          (main_try fmt0 ⟨true, false, 1, 2⟩ (world0 0 [busy_sample 5, busy_sample 9])).events
          = 1 :=
  have h1 : 0 < to_double (⟨true, false, 1, 2⟩ : Options).seconds := by
    simp only [to_double_one]
    norm_num
  have h2 : to_double (⟨true, false, 1, 2⟩ : Options).seconds
      < to_double (⟨true, false, 1, 2⟩ : Options).sample_rate := by
    simp only [to_double_one, to_double_two]
    norm_num
  have h := rate_above_duration fmt0 ⟨true, false, 1, 2⟩
    (world0 0 [busy_sample 5, busy_sample 9]) (busy_sample 5) [busy_sample 9] 2000000
    rfl rfl rfl h1 h2 to_micros_two (by decide) (by decide) (by decide) rfl rfl (by decide)
  ⟨h1, h2, to_micros_two, by decide, h.2.1, h.2.2.2.1⟩

/-- C8 fails as stated: with a duration of 1 second and a rate of `10 ^ 10`
seconds on a nanosecond clock, the interval of `10 ^ 16` microseconds does
not fit in 64 bits once converted to nanoseconds; the test of line 192 is
false after the first sample although the clock reading is not earlier than
the start reading, and the loop detaches, sleeps and reads the frame address
a second time. -/
theorem rate_overflow_second_sample :
    0 < to_double (⟨true, false, 1, 10000000000⟩ : Options).seconds
      ∧ to_double (⟨true, false, 1, 10000000000⟩ : Options).seconds
          < to_double (⟨true, false, 1, 10000000000⟩ : Options).sample_rate
      ∧ to_micros (⟨true, false, 1, 10000000000⟩ : Options).sample_rate
          = some 10000000000000000
      ∧ to_micros (⟨true, false, 1, 10000000000⟩ : Options).seconds = some 1000000
      ∧ (world0 1700000000000000000
            [busy_sample 1700000000000000005, busy_sample 1700000000000000009]).start
          ≤ (busy_sample 1700000000000000005).now
      ∧ ¬ (time_add 1000 (busy_sample 1700000000000000005).now 10000000000000000
            ≥ time_add 1000
                (world0 1700000000000000000
                  [busy_sample 1700000000000000005,
                    busy_sample 1700000000000000009]).start 1000000)
      ∧ calls .FirstFrameAddr
          (main_try fmt0 ⟨true, false, 1, 10000000000⟩
            (world0 1700000000000000000
              [busy_sample 1700000000000000005, busy_sample 1700000000000000009])).events = 2
      ∧ 0 < calls .PtraceDetach
          (main_try fmt0 ⟨true, false, 1, 10000000000⟩
            (world0 1700000000000000000
              [busy_sample 1700000000000000005, busy_sample 1700000000000000009])).events
      ∧ 0 < calls .sleep_for
          (main_try fmt0 ⟨true, false, 1, 10000000000⟩
            (world0 1700000000000000000
              [busy_sample 1700000000000000005, busy_sample 1700000000000000009])).events := by
  have h1 : 0 < to_double (⟨true, false, 1, 10000000000⟩ : Options).seconds := by
    simp only [to_double_one]
    norm_num
  have h2 : to_double (⟨true, false, 1, 10000000000⟩ : Options).seconds
      < to_double (⟨true, false, 1, 10000000000⟩ : Options).sample_rate := by
    simp only [to_double_one, to_double_ten_billion]
    norm_num
  refine ⟨h1, h2, to_micros_ten_billion, to_micros_default_seconds, by decide, by decide, ?_⟩
  rw [main_try_sampling fmt0 ⟨true, false, 1, 10000000000⟩
    (world0 1700000000000000000
      [busy_sample 1700000000000000005, busy_sample 1700000000000000009])
    10000000000000000 1000000 rfl rfl rfl
    (ne_of_gt h1) to_micros_ten_billion to_micros_default_seconds]
  decide

/-! ## Attach and detach on the exit paths -/

theorem loop_events_failed_attach (o : Options) (tick : Nat) (interval end_ : Int)
    (ss : List Sample) (st : LoopState)
    (h : (⟨.PtraceAttach, false⟩ : Event) ∈ (sampling_loop o tick interval end_ ss st).events) :
    returns .PtraceDetach (sampling_loop o tick interval end_ ss st).events
        = returns .PtraceAttach (sampling_loop o tick interval end_ ss st).events + 1
      ∧ attached_after true (sampling_loop o tick interval end_ ss st).events = false := by
  induction ss generalizing st with
  | nil => simp [sampling_loop] at h
  | cons x rest ih =>
    obtain ⟨hq1, hq2, hq3, hq4⟩ := take_sample_quiet o x st
    unfold sampling_loop at h ⊢
    rcases hp : take_sample o x st with ⟨ev, res⟩
    rw [hp] at hq1 hq2 hq3 hq4 h
    simp only at hq1 hq2 hq3 hq4 h ⊢
    cases res with
    | error e => exact absurd h hq4
    | ok st1 =>
      simp only at h ⊢
      by_cases hb : time_add tick x.now interval ≥ end_
      · simp only [hb, if_true] at h
        exact absurd h hq4
      · simp only [hb, if_false] at h ⊢
        cases hd : x.detach with
        | error e =>
          rw [hd] at h
          simp only [List.mem_append, List.mem_singleton] at h
          rcases h with h | h
          · exact absurd h hq4
          · simp at h
        | ok u =>
          cases hat : x.attach with
          | error e =>
            have c1 : returns .PtraceAttach [(⟨.PtraceDetach, true⟩ : Event),
                ⟨.sleep_for, true⟩, ⟨.PtraceAttach, false⟩] = 0 := by decide
            have c2 : returns .PtraceDetach [(⟨.PtraceDetach, true⟩ : Event),
                ⟨.sleep_for, true⟩, ⟨.PtraceAttach, false⟩] = 1 := by decide
            have c3 : attached_after true [(⟨.PtraceDetach, true⟩ : Event),
                ⟨.sleep_for, true⟩, ⟨.PtraceAttach, false⟩] = false := by decide
            simp only
            rw [returns_append, returns_append, attached_after_append, hq1, hq2, hq3, c1, c2, c3]
            simp
          | ok u2 =>
            rw [hd, hat] at h
            simp only [List.mem_append] at h
            have hrest : (⟨.PtraceAttach, false⟩ : Event)
                ∈ (sampling_loop o tick interval end_ rest st1).events := by
              rcases h with (h | h) | h
              · exact absurd h hq4
              · simp at h
              · exact h
            obtain ⟨ih1, ih2⟩ := ih st1 hrest
            have c1 : returns .PtraceAttach [(⟨.PtraceDetach, true⟩ : Event),
                ⟨.sleep_for, true⟩, ⟨.PtraceAttach, true⟩] = 1 := by decide
            have c2 : returns .PtraceDetach [(⟨.PtraceDetach, true⟩ : Event),
                ⟨.sleep_for, true⟩, ⟨.PtraceAttach, true⟩] = 1 := by decide
            have c3 : attached_after true [(⟨.PtraceDetach, true⟩ : Event),
                ⟨.sleep_for, true⟩, ⟨.PtraceAttach, true⟩] = true := by decide
            simp only
            rw [returns_append, returns_append, returns_append, returns_append,
              attached_after_append, attached_after_append, hq1, hq2, hq3, c1, c2, c3, ih1, ih2]
            exact ⟨by omega, rfl⟩

theorem report_balance (fmt : Fmt) (o : Options) (tick : Nat) (interval end_ : Int)
    (ss : List Sample) :
    ((⟨.PtraceAttach, false⟩ : Event) ∈
        (sample_and_report fmt o tick interval end_ ss
          [⟨.PtraceAttach, true⟩, ⟨.Namespace, true⟩, ⟨.ThreadStateAddr, true⟩,
            ⟨.now, true⟩]).events →
      returns .PtraceAttach
          (sample_and_report fmt o tick interval end_ ss
            [⟨.PtraceAttach, true⟩, ⟨.Namespace, true⟩, ⟨.ThreadStateAddr, true⟩,
              ⟨.now, true⟩]).events
        = returns .PtraceDetach
            (sample_and_report fmt o tick interval end_ ss
              [⟨.PtraceAttach, true⟩, ⟨.Namespace, true⟩, ⟨.ThreadStateAddr, true⟩,
                ⟨.now, true⟩]).events
      ∧ attached_after false
          (sample_and_report fmt o tick interval end_ ss
            [⟨.PtraceAttach, true⟩, ⟨.Namespace, true⟩, ⟨.ThreadStateAddr, true⟩,
              ⟨.now, true⟩]).events = false)
    ∧ ((⟨.PtraceAttach, false⟩ : Event) ∉
        (sample_and_report fmt o tick interval end_ ss
          [⟨.PtraceAttach, true⟩, ⟨.Namespace, true⟩, ⟨.ThreadStateAddr, true⟩,
            ⟨.now, true⟩]).events →
      returns .PtraceAttach
          (sample_and_report fmt o tick interval end_ ss
            [⟨.PtraceAttach, true⟩, ⟨.Namespace, true⟩, ⟨.ThreadStateAddr, true⟩,
              ⟨.now, true⟩]).events
        = returns .PtraceDetach
            (sample_and_report fmt o tick interval end_ ss
              [⟨.PtraceAttach, true⟩, ⟨.Namespace, true⟩, ⟨.ThreadStateAddr, true⟩,
                ⟨.now, true⟩]).events + 1
      ∧ attached_after false
          (sample_and_report fmt o tick interval end_ ss
            [⟨.PtraceAttach, true⟩, ⟨.Namespace, true⟩, ⟨.ThreadStateAddr, true⟩,
              ⟨.now, true⟩]).events = true) := by
  rw [report_events]
  have c1 : returns .PtraceAttach [(⟨.PtraceAttach, true⟩ : Event),
      ⟨.Namespace, true⟩, ⟨.ThreadStateAddr, true⟩, ⟨.now, true⟩] = 1 := by decide
  have c2 : returns .PtraceDetach [(⟨.PtraceAttach, true⟩ : Event),
      ⟨.Namespace, true⟩, ⟨.ThreadStateAddr, true⟩, ⟨.now, true⟩] = 0 := by decide
  have c3 : attached_after false [(⟨.PtraceAttach, true⟩ : Event),
      ⟨.Namespace, true⟩, ⟨.ThreadStateAddr, true⟩, ⟨.now, true⟩] = true := by decide
  have c4 : (⟨.PtraceAttach, false⟩ : Event) ∉ [(⟨.PtraceAttach, true⟩ : Event),
      ⟨.Namespace, true⟩, ⟨.ThreadStateAddr, true⟩, ⟨.now, true⟩] := by decide
  generalize [(⟨.PtraceAttach, true⟩ : Event), ⟨.Namespace, true⟩,
    ⟨.ThreadStateAddr, true⟩, ⟨.now, true⟩] = pre at c1 c2 c3 c4 ⊢
  constructor
  · intro h
    have hloop : (⟨.PtraceAttach, false⟩ : Event)
        ∈ (sampling_loop o tick interval end_ ss LoopState.initial).events := by
      rcases List.mem_append.1 h with h | h
      · exact absurd h c4
      · exact h
    obtain ⟨h1, h2⟩ := loop_events_failed_attach o tick interval end_ ss LoopState.initial hloop
    rw [returns_append, returns_append, attached_after_append, c1, c2, c3, h1, h2]
    exact ⟨by omega, rfl⟩
  · intro h
    have hloop : (⟨.PtraceAttach, false⟩ : Event)
        ∉ (sampling_loop o tick interval end_ ss LoopState.initial).events :=
      fun hm => h (List.mem_append_right _ hm)
    obtain ⟨h1, h2⟩ := loop_events_balanced o tick interval end_ ss LoopState.initial hloop
    rw [returns_append, returns_append, attached_after_append, c1, c2, c3, h1, h2]
    exact ⟨by omega, rfl⟩

theorem single_shot_balance (fmt : Fmt) (o : Options) (ss : List Sample) (code : Int)
    (hend : (single_shot fmt o
      [⟨.PtraceAttach, true⟩, ⟨.Namespace, true⟩, ⟨.ThreadStateAddr, true⟩] ss).ending
        = .returned code) :
    (⟨.PtraceAttach, false⟩ : Event) ∉
        (single_shot fmt o
          [⟨.PtraceAttach, true⟩, ⟨.Namespace, true⟩, ⟨.ThreadStateAddr, true⟩] ss).events
      ∧ returns .PtraceAttach
          (single_shot fmt o
            [⟨.PtraceAttach, true⟩, ⟨.Namespace, true⟩, ⟨.ThreadStateAddr, true⟩] ss).events
        = returns .PtraceDetach
            (single_shot fmt o
              [⟨.PtraceAttach, true⟩, ⟨.Namespace, true⟩, ⟨.ThreadStateAddr, true⟩]
              ss).events + 1
      ∧ attached_after false
          (single_shot fmt o
            [⟨.PtraceAttach, true⟩, ⟨.Namespace, true⟩, ⟨.ThreadStateAddr, true⟩] ss).events
        = true := by
  cases ss with
  | nil => simp [single_shot] at hend
  | cons x rest =>
    simp only [single_shot]
    cases x.frame_addr with
    | error e => simp [caught, returns, attached_after]
    | ok a =>
      by_cases ha0 : a = 0
      · by_cases hts : o.include_ts = true <;>
          simp [ha0, hts, returns, attached_after]
      · cases x.stack with
        | error e =>
          by_cases hts : o.include_ts = true <;>
            simp [ha0, hts, caught, returns, attached_after]
        | ok fs =>
          by_cases hts : o.include_ts = true <;>
            simp [ha0, hts, returns, attached_after]

/-- C6, as the code has it. For every run of the `try` block of `main` that
returns: when a `PtraceAttach` call failed (the first one, or a re-attach
after a sleep), the `PtraceDetach` calls that returned are as many as the
`PtraceAttach` calls that returned and the sequence of attach and detach
calls that returned ends in the detached state; on every other exit path
(the normal end of the sampling loop, the single-shot branch, and an
exception from `Namespace`, `ThreadStateAddr`, `FirstFrameAddr`, `GetStack`
or `PtraceDetach`) the `PtraceDetach` calls that returned are exactly one
fewer than the `PtraceAttach` calls that returned and that sequence ends in
the attached state. -/
theorem detach_balance_at_exit (fmt : Fmt) (o : Options) (w : World) (code : Int)
    (hend : (main_try fmt o w).ending = .returned code) :
    ((⟨.PtraceAttach, false⟩ : Event) ∈ (main_try fmt o w).events →
        returns .PtraceAttach (main_try fmt o w).events
            = returns .PtraceDetach (main_try fmt o w).events
          ∧ attached_after false (main_try fmt o w).events = false)
      ∧ ((⟨.PtraceAttach, false⟩ : Event) ∉ (main_try fmt o w).events →
        returns .PtraceAttach (main_try fmt o w).events
            = returns .PtraceDetach (main_try fmt o w).events + 1
          ∧ attached_after false (main_try fmt o w).events = true) := by
  unfold main_try at hend ⊢
  cases ha : w.attach with
  | error e => simp [caught, returns, attached_after]
  | ok u1 =>
    cases hn : w.ns with
    | error e => simp [caught, returns, attached_after]
    | ok u2 =>
      cases ht : w.tstate with
      | error e => simp [caught, returns, attached_after]
      | ok addr =>
        rw [ha, hn, ht] at hend
        simp only at hend ⊢
        by_cases hs : to_double o.seconds ≠ 0
        · rw [if_pos hs] at hend ⊢
          cases hi : to_micros o.sample_rate with
          | none =>
            rw [hi] at hend
            simp at hend
          | some interval =>
            cases hsp : to_micros o.seconds with
            | none =>
              rw [hi, hsp] at hend
              simp at hend
            | some span =>
              simp only [List.cons_append, List.nil_append]
              exact report_balance fmt o w.tick interval (time_add w.tick w.start span)
                w.samples
        · rw [if_neg hs] at hend ⊢
          obtain ⟨h1, h2, h3⟩ := single_shot_balance fmt o w.samples code hend
          exact ⟨fun hm => absurd hm h1, fun _ => ⟨h2, h3⟩⟩

/-- Witness of C6: a default run of two samples that ends by the `break`. -/
theorem detach_balance_at_exit_witness :
    (main_try fmt0 ⟨true, false, 1, 1 / 1000⟩
        (world0 0 [busy_sample 5, busy_sample 1000000000])).ending = .returned 0
      ∧ ((⟨.PtraceAttach, false⟩ : Event) ∉
          (main_try fmt0 ⟨true, false, 1, 1 / 1000⟩
            (world0 0 [busy_sample 5, busy_sample 1000000000])).events →
        returns .PtraceAttach
            (main_try fmt0 ⟨true, false, 1, 1 / 1000⟩
              (world0 0 [busy_sample 5, busy_sample 1000000000])).events
          = returns .PtraceDetach
              (main_try fmt0 ⟨true, false, 1, 1 / 1000⟩
                (world0 0 [busy_sample 5, busy_sample 1000000000])).events + 1
          ∧ attached_after false
              (main_try fmt0 ⟨true, false, 1, 1 / 1000⟩
                (world0 0 [busy_sample 5, busy_sample 1000000000])).events = true) :=
  have h1 : (main_try fmt0 ⟨true, false, 1, 1 / 1000⟩
      (world0 0 [busy_sample 5, busy_sample 1000000000])).ending = .returned 0 := by
    rw [main_try_sampling fmt0 ⟨true, false, 1, 1 / 1000⟩
      (world0 0 [busy_sample 5, busy_sample 1000000000]) 1000 1000000 rfl rfl rfl
      (by simp only [to_double_one]; norm_num) to_micros_default_rate
      to_micros_default_seconds]
    decide
  ⟨h1,
    (detach_balance_at_exit fmt0 ⟨true, false, 1, 1 / 1000⟩
      (world0 0 [busy_sample 5, busy_sample 1000000000]) 0 h1).2⟩

/-- C6 fails as stated: a default run of two samples, in which every call
returns, ends by the `break` and returns 0 with two `PtraceAttach` calls and
one `PtraceDetach` call made, the target still attached. -/
theorem detach_missing_at_exit :
    (main_try fmt0 ⟨true, false, 1, 1 / 1000⟩
        (world0 0 [busy_sample 5, busy_sample 1000000000])).ending = .returned 0
      ∧ returns .PtraceAttach
          (main_try fmt0 ⟨true, false, 1, 1 / 1000⟩
            (world0 0 [busy_sample 5, busy_sample 1000000000])).events = 2
      ∧ returns .PtraceDetach
          (main_try fmt0 ⟨true, false, 1, 1 / 1000⟩
            (world0 0 [busy_sample 5, busy_sample 1000000000])).events = 1
      ∧ attached_after false
          (main_try fmt0 ⟨true, false, 1, 1 / 1000⟩
            (world0 0 [busy_sample 5, busy_sample 1000000000])).events = true := by
  rw [main_try_sampling fmt0 ⟨true, false, 1, 1 / 1000⟩
    (world0 0 [busy_sample 5, busy_sample 1000000000]) 1000 1000000 rfl rfl rfl
    (by simp only [to_double_one]; norm_num) to_micros_default_rate to_micros_default_seconds]
  decide

end Pyflame
